import Mathlib

/-!
Verification of the LinkedIn profile-matching engine of `mtd_workflowmax`
(`src/mtd_workflowmax/services/linkedin_service.py` and
`src/mtd_workflowmax/services/workflowmax_linkedin_service.py`), as a shallow
embedding in Lean.

Modelling conventions:
* Python strings are `List Char`; `None` and the empty string are both
  falsy in the source, and fields that the code only tests for truthiness
  are modelled as `List Char` with `[]` for absent/empty.
* Python floats are modelled as exact rationals (`ℚ`); all the float values
  involved are produced by `2*M/T`, `x*0.6 + y*0.4` and threshold
  comparisons, which the development treats with exact real arithmetic.
* `difflib.SequenceMatcher(None, a, b).ratio()` (CPython, `isjunk=None`,
  `autojunk=True`) is embedded in full: the `b2j` index with the autojunk
  purge of popular elements, `find_longest_match` (the two junk-extension
  loops are omitted because `bjunk` is empty when `isjunk is None`, making
  their guards unsatisfiable), and the recursive block decomposition whose
  size sum is what `ratio` consumes (the queue order, the sort and the
  adjacent-block merge in `get_matching_blocks` do not change that sum).
* External collaborators (the `linkedin_api` client and the WorkflowMax
  repositories) are modelled as records of total `Except`-valued functions;
  an `Except.error` models an exception raised by the external call.
-/

namespace MTDWMax

/-! ## Text normalization: `LinkedInService._clean_text`

The source lower-cases, replaces every character outside `[a-z0-9\s]` with a
space, then rejoins the whitespace-split words with single spaces.  Python's
`str.lower` is modelled on its ASCII fragment, and `\s` / `str.split()` by the
ASCII whitespace class, which is all the normalized comparisons exercise. -/

/-- Python regex `\s` and `str.split()` whitespace, ASCII fragment:
space, tab, newline, carriage return, vertical tab, form feed. -/
def isPyWs (c : Char) : Bool :=
  c.toNat = 32 || c.toNat = 9 || c.toNat = 10 || c.toNat = 13 ||
    c.toNat = 11 || c.toNat = 12

/-- Python `str.lower`, ASCII fragment: map `A`-`Z` to `a`-`z`. -/
def pyLower (c : Char) : Char :=
  if 65 ≤ c.toNat ∧ c.toNat ≤ 90 then Char.ofNat (c.toNat + 32) else c

/-- Characters kept by `re.sub(r'[^a-z0-9\s]', ' ', ...)`:
lower-case ASCII letters, digits, and whitespace. -/
def isKept (c : Char) : Bool :=
  (97 ≤ c.toNat && c.toNat ≤ 122) || (48 ≤ c.toNat && c.toNat ≤ 57) || isPyWs c

/-- The `re.sub(r'[^a-z0-9\s]', ' ', cleaned)` step. -/
def subSpecial (s : List Char) : List Char :=
  s.map (fun c => if isKept c then c else ' ')

/-- Python `str.split()` (whitespace mode): split on runs of whitespace,
dropping leading/trailing whitespace, producing no empty parts.  The
recursion consumes at least one character per step, so the list length is
adequate fuel (`pyWordsGo_congr` certifies the fuel is irrelevant). -/
def pyWordsGo : Nat → List Char → List (List Char)
  | 0, _ => []
  | _ + 1, [] => []
  | fuel + 1, c :: cs =>
    if isPyWs c then pyWordsGo fuel cs
    else (c :: cs.takeWhile (fun d => !isPyWs d)) ::
      pyWordsGo fuel (cs.dropWhile (fun d => !isPyWs d))

def pyWords (l : List Char) : List (List Char) := pyWordsGo l.length l

/-- `' '.join(parts)`.  (The source's generator filter `if part` is a no-op
because `str.split()` never yields empty parts.) -/
def joinSpace : List (List Char) → List Char
  | [] => []
  | [w] => w
  | w :: v :: ws => w ++ ' ' :: joinSpace (v :: ws)

/-- `LinkedInService._clean_text`.  `if not text: return ""` covers both
`None` and the empty string, which the model folds into `[]`. -/
def clean_text (s : List Char) : List Char :=
  if s = [] then [] else joinSpace (pyWords (subSpecial (s.map pyLower)))

/-! ## difflib.SequenceMatcher (CPython, `isjunk=None`, `autojunk=True`)

The code builds every similarity score with
`SequenceMatcher(None, x, y).ratio()`. -/

/-- `b2j[c]` before the autojunk purge: ascending positions of `c` in `b`. -/
def positionsOf (b : List Char) (c : Char) : List Nat :=
  (List.range b.length).filter (fun j => b.getD j ' ' = c)

/-- `b2j[c]` after the autojunk purge: when `len(b) >= 200`, elements with
more than `len(b) // 100 + 1` occurrences are popular and dropped from the
index.  `bjunk` is empty because `isjunk` is `None`. -/
def b2j (b : List Char) (c : Char) : List Nat :=
  let idxs := positionsOf b c
  if 200 ≤ b.length ∧ b.length / 100 + 1 < idxs.length then [] else idxs

/-- Mutable state of the chain-scan loop in `find_longest_match`:
the best block found so far and the current row of `j2len`. -/
structure FlmSt where
  besti : Nat
  bestj : Nat
  bestsize : Nat
  j2len : Nat → Nat

/-- Inner loop body of `find_longest_match`, processing match position `j`
of row `i`: `k = newj2len[j] = j2lenget(j-1, 0) + 1` (`old` is the previous
row, bound before the loop), and `k > bestsize` moves the best block to
`(i-k+1, j-k+1, k)`.  The truncated subtractions are exact because chains
satisfy `k ≤ i+1` and `k ≤ j+1`. -/
def flmInner (old : Nat → Nat) (i : Nat) (st : FlmSt) (j : Nat) : FlmSt :=
  let k := (if j = 0 then 0 else old (j - 1)) + 1
  let nj : Nat → Nat := fun m => if m = j then k else st.j2len m
  if st.bestsize < k then ⟨i + 1 - k, j + 1 - k, k, nj⟩
  else ⟨st.besti, st.bestj, st.bestsize, nj⟩

/-- One row `i` of the chain scan.  Python walks `b2j[a[i]]` in ascending
order with `continue` below `blo` and `break` at `bhi`; on an ascending list
that is the filter below.  Each row starts from a fresh `newj2len`. -/
def flmRow (a b : List Char) (blo bhi : Nat) (st : FlmSt) (i : Nat) : FlmSt :=
  let jlist := (b2j b (a.getD i ' ')).filter (fun j => decide (blo ≤ j ∧ j < bhi))
  jlist.foldl (flmInner st.j2len i) ⟨st.besti, st.bestj, st.bestsize, fun _ => 0⟩

/-- The chain-scan phase of `find_longest_match` over rows `alo..ahi-1`,
starting from `besti, bestj, bestsize = alo, blo, 0` and an empty `j2len`. -/
def flmScan (a b : List Char) (alo ahi blo bhi : Nat) : FlmSt :=
  (List.range' alo (ahi - alo)).foldl (flmRow a b blo bhi)
    ⟨alo, blo, 0, fun _ => 0⟩

/-- The leftward extension loop of `find_longest_match`, structurally
recursive on `besti`, which the loop decrements.  (Its junk twin never
fires: `bjunk = ∅`, so `isbjunk` is constantly false.) -/
def extendLeft (a b : List Char) (alo blo : Nat) :
    Nat → Nat → Nat → Nat × Nat × Nat
  | 0, bestj, bestsize => (0, bestj, bestsize)
  | besti + 1, bestj, bestsize =>
    if alo < besti + 1 ∧ blo < bestj ∧
        a.getD (besti + 1 - 1) ' ' = b.getD (bestj - 1) ' ' then
      extendLeft a b alo blo besti (bestj - 1) (bestsize + 1)
    else (besti + 1, bestj, bestsize)

/-- The rightward extension loop of `find_longest_match`, structurally
recursive on `ahi - (besti + bestsize)`, which `extendRight` passes as
`rem`; `rem = 0` is exactly the failure of the loop guard's first conjunct
`besti + bestsize < ahi`. -/
def extendRightGo (a b : List Char) (bhi besti bestj : Nat) : Nat → Nat → Nat
  | 0, bestsize => bestsize
  | rem + 1, bestsize =>
    if bestj + bestsize < bhi ∧
        a.getD (besti + bestsize) ' ' = b.getD (bestj + bestsize) ' ' then
      extendRightGo a b bhi besti bestj rem (bestsize + 1)
    else bestsize

def extendRight (a b : List Char) (ahi bhi besti bestj bestsize : Nat) : Nat :=
  extendRightGo a b bhi besti bestj (ahi - (besti + bestsize)) bestsize

/-- `SequenceMatcher.find_longest_match(alo, ahi, blo, bhi)`. -/
def find_longest_match (a b : List Char) (alo ahi blo bhi : Nat) :
    Nat × Nat × Nat :=
  let st := flmScan a b alo ahi blo bhi
  let r := extendLeft a b alo blo st.besti st.bestj st.bestsize
  (r.1, r.2.1, extendRight a b ahi bhi r.1 r.2.1 r.2.2)

/-- The best block is the degenerate `(alo, blo, 0)` or sits inside the
window. -/
def BestOk (alo ahi blo bhi : Nat) (st : FlmSt) : Prop :=
  (st.bestsize = 0 ∧ st.besti = alo ∧ st.bestj = blo) ∨
  (1 ≤ st.bestsize ∧ alo ≤ st.besti ∧ blo ≤ st.bestj ∧
    st.besti + st.bestsize ≤ ahi ∧ st.bestj + st.bestsize ≤ bhi)

/-- Chain-scan invariant before processing row `i`: the best block is sound
and the previous row's chain lengths are bounded by both prefix widths. -/
def ScanInv (alo ahi blo bhi i : Nat) (st : FlmSt) : Prop :=
  BestOk alo ahi blo bhi st ∧
  ∀ m, st.j2len m ≤ i - alo ∧
    (st.j2len m ≠ 0 → blo ≤ m ∧ m < bhi ∧ st.j2len m ≤ m + 1 - blo)

/-- Total matched-element count of `SequenceMatcher.get_matching_blocks`:
the size sum of the recursive block decomposition, computed with explicit
fuel so that the kernel can evaluate it.  Each recursive call strictly
shrinks `(ahi - alo) + (bhi - blo)` (`flm_bounds`), so the fuel chosen by
`matchesSum` never runs out; `matchesSumGo_congr` certifies this.  The
queue order, the final sort and the merge of adjacent blocks in the source
`get_matching_blocks` do not change the size sum, which is all `ratio`
reads. -/
def matchesSumGo (a b : List Char) : Nat → Nat → Nat → Nat → Nat → Nat
  | 0, _, _, _, _ => 0
  | fuel + 1, alo, ahi, blo, bhi =>
    match find_longest_match a b alo ahi blo bhi with
    | (i, j, k) =>
      if 0 < k then
        k + (if alo < i ∧ blo < j then matchesSumGo a b fuel alo i blo j
              else 0) +
          (if i + k < ahi ∧ j + k < bhi then
            matchesSumGo a b fuel (i + k) ahi (j + k) bhi else 0)
      else 0

def matchesSum (a b : List Char) (alo ahi blo bhi : Nat) : Nat :=
  matchesSumGo a b ((ahi - alo) + (bhi - blo) + 1) alo ahi blo bhi

/-!
Exact rational arithmetic.  The standard `ℚ` operations `*`, `+`, `/` are
`@[irreducible]` in this toolchain and the kernel cannot evaluate them, so
the model computes with `mkRat` and the two helpers below; `qmul_eq`,
`qadd_eq` and `sm_ratio_eq_div` prove they denote exactly the textbook
operations, and the claim theorems are stated with the standard operations.
-/

/-- Kernel-computable multiplication on `ℚ` (see `qmul_eq`). -/
def qmul (a b : ℚ) : ℚ := mkRat (a.num * b.num) (a.den * b.den)

/-- Kernel-computable addition on `ℚ` (see `qadd_eq`). -/
def qadd (a b : ℚ) : ℚ := mkRat (a.num * b.den + b.num * a.den) (a.den * b.den)

/-- `SequenceMatcher.ratio() = 2.0*M/T`; `_calculate_ratio` returns `1.0`
when both sequences are empty (see `sm_ratio_eq_div` for the division
form). -/
def sm_ratio (a b : List Char) : ℚ :=
  if a.length + b.length = 0 then 1
  else mkRat (2 * matchesSum a b 0 a.length 0 b.length)
    (a.length + b.length)

/-! ### `ratio` of a sequence with itself is `1.0`

The scan of `a` against `a` always ends with a best block on the diagonal
(`besti = bestj`): chains are bounded by the current non-purged run length,
the diagonal position of a row is processed before any position to its
right, and `bestsize` always dominates every chain ending strictly left of
the diagonal.  From a diagonal block the two extension loops (which ignore
the autojunk purge) grow the block to the whole sequence. -/

/-- Length of the run of non-purged (present in `b2j`) characters of `a`
ending at index `i`. -/
def selfRun (a : List Char) : Nat → Nat
  | 0 => if b2j a (a.getD 0 ' ') = [] then 0 else 1
  | i + 1 => if b2j a (a.getD (i + 1) ' ') = [] then 0 else selfRun a i + 1

/-- Maximum of `selfRun` over indices below `r`. -/
def selfRunMax (a : List Char) : Nat → Nat
  | 0 => 0
  | r + 1 => max (selfRunMax a r) (selfRun a r)

/-- Scan invariant of `a` against `a` before processing row `r`: the best
block is diagonal with size the maximal run seen so far, and the previous
row's chain values are bounded by the per-key run and by the previous row's
run, with the diagonal entry exact. -/
def SelfInv (a : List Char) (r : Nat) (st : FlmSt) : Prop :=
  st.besti = st.bestj ∧
  st.bestsize = selfRunMax a r ∧
  (∀ m, st.j2len m ≤ selfRun a m) ∧
  (∀ m, st.j2len m ≤ (if r = 0 then 0 else selfRun a (r - 1))) ∧
  (∀ r', r = r' + 1 → st.j2len r' = selfRun a r')

/-! ## Data model

Python strings are `List Char`.  Fields that the source reads with
`dict.get(key, '')` or tests only for truthiness are `List Char` with `[]`
standing for both `None` and the empty string (they are interchangeable in
every use the code makes of them). -/

/-- Class constants of `LinkedInService` (kernel-computable forms; the
`_eq` lemmas give the literal values). -/
def SIMILARITY_THRESHOLD : ℚ := mkRat 7 10

def NAME_THRESHOLD : ℚ := mkRat 8 10

def EXPERIENCE_THRESHOLD : ℚ := mkRat 3 10

/-- The inline `0.8` high-confidence literal in `_analyze_experience`. -/
def HIGH_CONFIDENCE : ℚ := mkRat 8 10

def LINKEDIN_BASE_URL : List Char := "https://www.linkedin.com/in/".data

def LINKEDIN_FIELD : List Char := "LINKEDIN PROFILE".data

/-- One entry of a LinkedIn profile's `experience` list; the code reads
`role.get('companyName', '')` and `role.get('title', '')`. -/
structure ExperienceEntry where
  companyName : List Char
  title : List Char
deriving DecidableEq

/-- The fields of a fetched LinkedIn profile that the matcher reads. -/
structure LinkedInProfile where
  firstName : List Char
  lastName : List Char
  experience : List ExperienceEntry
  public_id : List Char
deriving DecidableEq

/-- The `ProfileData` protocol: `name`, `company_name`, `position_title`. -/
structure ProfileData where
  name : List Char
  company_name : List Char
  position_title : List Char
deriving DecidableEq

/-- A search hit; the code reads `result.get('urn_id')` and skips falsy
values. -/
structure SearchHit where
  urn_id : List Char
deriving DecidableEq

/-- The contact-info lookup result; the code reads
`contact_info.get('public_profile_url')`. -/
structure ContactInfo where
  public_profile_url : List Char
deriving DecidableEq

/-- Result of `_analyze_experience`. -/
structure ExperienceAnalysis where
  has_company_match : Bool
  has_title_match : Bool
  best_company : Option (List Char)
  best_title : Option (List Char)
  company_similarity : ℚ
  title_similarity : ℚ
deriving DecidableEq

/-- The `best_match` dict built in `find_linkedin_profile`. -/
structure BestMatch where
  url : Option (List Char)
  score : ℚ
  name : List Char
  company : Option (List Char)
  title : Option (List Char)
  public_id : List Char
deriving DecidableEq

/-- An exception; the payload is the message string. -/
abbrev Err := List Char

/-! ## `LinkedInService._analyze_experience` -/

/-- The loop body of `_analyze_experience` for one experience entry:
for a truthy company, compare the cleaned company against the (already
cleaned) target, track the maximum score with the original company string,
and latch the 0.8 high-confidence flag; then the same for the title. -/
def analyzeStep (tc tt : List Char) (st : ExperienceAnalysis)
    (role : ExperienceEntry) : ExperienceAnalysis :=
  let st1 :=
    if role.companyName = [] then st
    else
      let score := sm_ratio tc (clean_text role.companyName)
      { st with
        company_similarity :=
          if st.company_similarity < score then score
          else st.company_similarity,
        best_company :=
          if st.company_similarity < score then some role.companyName
          else st.best_company,
        has_company_match :=
          if HIGH_CONFIDENCE ≤ score then true else st.has_company_match }
  if role.title = [] then st1
  else
    let score := sm_ratio tt (clean_text role.title)
    { st1 with
      title_similarity :=
        if st1.title_similarity < score then score else st1.title_similarity,
      best_title :=
        if st1.title_similarity < score then some role.title
        else st1.best_title,
      has_title_match :=
        if HIGH_CONFIDENCE ≤ score then true else st1.has_title_match }

/-- `LinkedInService._analyze_experience`: empty experience short-circuits
to the all-negative result; otherwise clean the targets once and fold over
every entry (no early exit). -/
def analyze_experience (lp : LinkedInProfile)
    (target_company target_title : List Char) : ExperienceAnalysis :=
  if lp.experience = [] then ⟨false, false, none, none, 0, 0⟩
  else
    let tc := clean_text target_company
    let tt := clean_text target_title
    lp.experience.foldl (analyzeStep tc tt) ⟨false, false, none, none, 0, 0⟩

/-! ## `LinkedInService.calculate_similarity` -/

/-- `LinkedInService.calculate_similarity`: name similarity between the
cleaned contact name and the cleaned `"{firstName} {lastName}"`,
experience similarity `max(company_similarity, title_similarity)`, the
two-threshold gate forcing `0.0`, else the `0.6/0.4` weighted blend. -/
def calculate_similarity (profile : ProfileData) (lp : LinkedInProfile) : ℚ :=
  let ea := analyze_experience lp profile.company_name profile.position_title
  let profile_name := clean_text profile.name
  let linkedin_name := clean_text (lp.firstName ++ ' ' :: lp.lastName)
  let name_similarity := sm_ratio profile_name linkedin_name
  let experience_similarity := max ea.company_similarity ea.title_similarity
  if name_similarity < NAME_THRESHOLD ∨
      experience_similarity < EXPERIENCE_THRESHOLD then 0
  else qadd (qmul name_similarity (mkRat 6 10))
    (qmul experience_similarity (mkRat 4 10))

/-! ## `LinkedInService.find_linkedin_profile`

The `linkedin_api` client is a record of total `Except`-valued functions;
`Except.error` models a raised exception.  A `CallTrace` records every
external call the modelled code makes, in order. -/

structure LinkedInApi where
  search_people : List Char → List Char → Except Err (List SearchHit)
  get_profile : List Char → Except Err LinkedInProfile
  get_profile_contact_info : List Char → Except Err ContactInfo

structure CallTrace where
  search_calls : List (List Char × List Char)
  profile_calls : List (List Char)
  contact_info_calls : List (List Char)
deriving DecidableEq

def emptyTrace : CallTrace := ⟨[], [], []⟩

/-- Python `str.split(maxsplit=1)` (whitespace mode). -/
def pySplit1 (s : List Char) : List (List Char) :=
  let s1 := s.dropWhile isPyWs
  if s1 = [] then []
  else
    let tok := s1.takeWhile (fun c => !isPyWs c)
    let rest := (s1.dropWhile (fun c => !isPyWs c)).dropWhile isPyWs
    if rest = [] then [tok] else [tok, rest]

def wmSearchFailed : Err := "LinkedIn profile search failed".data

/-- The candidate loop of `find_linkedin_profile` over (at most five)
search results: skip hits without a truthy `urn_id`; fetch the profile,
score it, fetch contact info (both calls for every considered candidate);
on a strictly better score rebuild the analysis, resolve the profile URL
(contact-info URL, else the canonical URL from `public_id`, else `None`)
and record the new best match.  Exceptions abort the loop. -/
def findLoop (api : LinkedInApi) (profile : ProfileData) :
    List SearchHit → Option BestMatch → ℚ → CallTrace →
    Except Err (Option BestMatch × ℚ) × CallTrace
  | [], best, bestScore, tr => (.ok (best, bestScore), tr)
  | r :: rs, best, bestScore, tr =>
    if r.urn_id = [] then findLoop api profile rs best bestScore tr
    else
      let tr1 := { tr with profile_calls := tr.profile_calls ++ [r.urn_id] }
      match api.get_profile r.urn_id with
      | .error e => (.error e, tr1)
      | .ok lp =>
        let score := calculate_similarity profile lp
        let tr2 := { tr1 with
          contact_info_calls := tr1.contact_info_calls ++ [r.urn_id] }
        match api.get_profile_contact_info r.urn_id with
        | .error e => (.error e, tr2)
        | .ok ci =>
          if bestScore < score then
            let ea := analyze_experience lp profile.company_name
              profile.position_title
            let profile_url : Option (List Char) :=
              if ci.public_profile_url ≠ [] then some ci.public_profile_url
              else if lp.public_id ≠ [] then
                some (LINKEDIN_BASE_URL ++ lp.public_id)
              else none
            let bm : BestMatch :=
              ⟨profile_url, score, lp.firstName ++ ' ' :: lp.lastName,
                ea.best_company, ea.best_title, lp.public_id⟩
            findLoop api profile rs (some bm) score tr2
          else findLoop api profile rs best bestScore tr2

/-- `LinkedInService.find_linkedin_profile`: split the name (single-token
names return `None` before any external call), clean both parts, search,
return `None` on zero hits, loop over `search_results[:5]`, and return the
best match only when its score reaches `SIMILARITY_THRESHOLD`.  Any
exception from the external calls is wrapped into
`WorkflowMaxError("LinkedIn profile search failed")`. -/
def find_linkedin_profile (api : LinkedInApi) (profile : ProfileData) :
    Except Err (Option BestMatch) × CallTrace :=
  let name_parts := pySplit1 profile.name
  if name_parts.length ≠ 2 then (.ok none, emptyTrace)
  else
    let first_name := clean_text (name_parts.getD 0 [])
    let last_name := clean_text (name_parts.getD 1 [])
    let tr := { emptyTrace with search_calls := [(first_name, last_name)] }
    match api.search_people first_name last_name with
    | .error _ => (.error wmSearchFailed, tr)
    | .ok search_results =>
      if search_results = [] then (.ok none, tr)
      else
        match findLoop api profile (search_results.take 5) none 0 tr with
        | (.error _, tr') => (.error wmSearchFailed, tr')
        | (.ok (best, _), tr') =>
          match best with
          | some bm =>
            if SIMILARITY_THRESHOLD ≤ bm.score then (.ok (some bm), tr')
            else (.ok none, tr')
          | none => (.ok none, tr')

/-! ## `WorkflowMaxLinkedInService`: single-contact and batch update -/

/-- A WorkflowMax contact, reduced to the fields the updater reads;
`linkedin_profile_field` is `get_custom_field_value('LINKEDIN PROFILE')`
with `[]` for `None`/empty. -/
structure Contact where
  uuid : List Char
  name : List Char
  company_name : List Char
  position_title : List Char
  linkedin_profile_field : List Char
deriving DecidableEq

/-- Contacts satisfy the `ProfileData` protocol. -/
def Contact.toProfile (c : Contact) : ProfileData :=
  ⟨c.name, c.company_name, c.position_title⟩

/-- The contact repository: `get_by_uuid`, `update_custom_field`, and the
paginated `search` modelled as the list of successive pages (the source
stops at the first empty page; pages past the end of the list are empty). -/
structure WMRepositories where
  get_by_uuid : List Char → Except Err Contact
  update_custom_field : List Char → List Char → List Char → Except Err Bool
  pages : List (Except Err (List Contact))

/-- Truthiness of `match.get('url')`: `None` and `''` are falsy. -/
def optTruthy (o : Option (List Char)) : Bool := o.getD [] ≠ []

def wmUpdateFailed : Err := "Failed to update contact".data

/-- `WorkflowMaxLinkedInService.update_single_contact`: fetch the contact,
skip it if the LinkedIn field is already set, run the matcher, resolve a
URL (match URL, else canonical URL from `public_id`, else give up), and
write the custom field unless `dry_run` or the score is below threshold.
Every exception is wrapped into `WorkflowMaxError(f"Failed to update
contact {uuid}")`. -/
def update_single_contact (api : LinkedInApi) (repos : WMRepositories)
    (contact_uuid : List Char) (dry_run : Bool) :
    Except Err (Option BestMatch) :=
  match repos.get_by_uuid contact_uuid with
  | .error _ => .error wmUpdateFailed
  | .ok contact =>
    if contact.linkedin_profile_field ≠ [] then .ok none
    else
      match (find_linkedin_profile api contact.toProfile).1 with
      | .error _ => .error wmUpdateFailed
      | .ok none => .ok none
      | .ok (some m) =>
        let url0 := m.url
        let profile_url :=
          if ¬ optTruthy url0 ∧ m.public_id ≠ [] then
            some (LINKEDIN_BASE_URL ++ m.public_id)
          else url0
        if ¬ optTruthy profile_url then .ok none
        else
          if ¬ dry_run ∧ SIMILARITY_THRESHOLD ≤ m.score then
            match repos.update_custom_field contact.uuid LINKEDIN_FIELD
                (profile_url.getD []) with
            | .error _ => .error wmUpdateFailed
            | .ok true => .ok (some m)
            | .ok false => .ok none
          else .ok (some m)

/-- The inner `for contact in contacts` loop of
`update_missing_linkedin_profiles`: count every contact, skip those whose
LinkedIn field is already set, and count an update when the returned match
clears the threshold.  A raised `WorkflowMaxError` escapes the `for` loop
to the page-level handler carrying the counts accumulated so far
(`Except.error`). -/
def processContacts (api : LinkedInApi) (repos : WMRepositories)
    (dry_run : Bool) :
    List Contact → Nat → Nat → Except (Nat × Nat) (Nat × Nat)
  | [], processed, updated => .ok (processed, updated)
  | c :: cs, processed, updated =>
    let processed' := processed + 1
    if c.linkedin_profile_field ≠ [] then
      processContacts api repos dry_run cs processed' updated
    else
      match update_single_contact api repos c.uuid dry_run with
      | .error _ => .error (processed', updated)
      | .ok m =>
        let updated' :=
          match m with
          | some mm =>
            if SIMILARITY_THRESHOLD ≤ mm.score then updated + 1 else updated
          | none => updated
        processContacts api repos dry_run cs processed' updated'

/-- The `while True` page loop of `update_missing_linkedin_profiles`: stop
on an empty page; a `WorkflowMaxError` raised anywhere in the page body —
fetching the page or processing one contact — is caught by the
`except WorkflowMaxError` handler, logged, and `break`s the whole loop,
returning the counts accumulated so far. -/
def pagesLoop (api : LinkedInApi) (repos : WMRepositories) (dry_run : Bool) :
    List (Except Err (List Contact)) → Nat → Nat → Nat × Nat
  | [], processed, updated => (processed, updated)
  | pg :: rest, processed, updated =>
    match pg with
    | .error _ => (processed, updated)
    | .ok [] => (processed, updated)
    | .ok contacts =>
      match processContacts api repos dry_run contacts processed updated with
      | .error pu => pu
      | .ok (p, u) => pagesLoop api repos dry_run rest p u

/-- `WorkflowMaxLinkedInService.update_missing_linkedin_profiles`. -/
def update_missing_linkedin_profiles (api : LinkedInApi)
    (repos : WMRepositories) (dry_run : Bool) : Nat × Nat :=
  pagesLoop api repos dry_run repos.pages 0 0

/-- The similarity function of the spec (§4.2) as the code computes it in
`calculate_similarity` (lines 212-215): normalize both inputs, then the
sequence-matcher ratio. -/
def similarity (x y : List Char) : ℚ :=
  sm_ratio (clean_text x) (clean_text y)

/-- The `best_match` record as `find_linkedin_profile` builds it for a
winning candidate whose profile is `lp` and contact info is `ci`. -/
def builtMatch (profile : ProfileData) (lp : LinkedInProfile)
    (ci : ContactInfo) : BestMatch :=
  ⟨if ci.public_profile_url ≠ [] then some ci.public_profile_url
    else if lp.public_id ≠ [] then some (LINKEDIN_BASE_URL ++ lp.public_id)
    else none,
   calculate_similarity profile lp,
   lp.firstName ++ ' ' :: lp.lastName,
   (analyze_experience lp profile.company_name profile.position_title).best_company,
   (analyze_experience lp profile.company_name profile.position_title).best_title,
   lp.public_id⟩

/-! ## Concrete test fixtures for counterexamples and witnesses -/

/-- A canonical profile with no company and no title (C10). -/
def cexProfile10 : ProfileData := ⟨"Jane Smith".data, [], []⟩

/-- A candidate whose single experience entry has a nonempty company that
normalizes to the empty string (C10). -/
def cexLp10 : LinkedInProfile :=
  ⟨"Jane".data, "Smith".data, [⟨"!!!".data, []⟩], "janesmith".data⟩

def cexApi10 : LinkedInApi :=
  ⟨fun _ _ => .ok [⟨"urn1".data⟩],
   fun _ => .ok cexLp10,
   fun _ => .ok ⟨"https://www.linkedin.com/in/janesmith".data⟩⟩

/-- A canonical profile matched perfectly by the first candidate (C5). -/
def cexProfile5 : ProfileData :=
  ⟨"Jane Smith".data, "Acme".data, "CFO".data⟩

/-- First candidate: perfect name and company match. -/
def cexLp5a : LinkedInProfile :=
  ⟨"Jane".data, "Smith".data, [⟨"Acme".data, "CFO".data⟩], "janesmith".data⟩

/-- Second candidate: unrelated name, gate forces score `0`. -/
def cexLp5b : LinkedInProfile :=
  ⟨"Zzz".data, "Qqq".data, [⟨"Other".data, "Clerk".data⟩], "zzzqqq".data⟩

def cexApi5 : LinkedInApi :=
  ⟨fun _ _ => .ok [⟨"urn1".data⟩, ⟨"urn2".data⟩],
   fun u => if u = "urn1".data then .ok cexLp5a else .ok cexLp5b,
   fun _ => .ok ⟨"https://www.linkedin.com/in/janesmith".data⟩⟩

/-- Contacts for the batch-abort counterexample (C4): two contacts in one
page, both missing the LinkedIn field; the matcher's search call fails. -/
def cexC4c1 : Contact :=
  ⟨"uuid1".data, "Jane Smith".data, "Acme".data, "CFO".data, []⟩

def cexC4c2 : Contact :=
  ⟨"uuid2".data, "John Doe".data, "Acme".data, "CEO".data, []⟩

/-- An API whose people search always raises. -/
def cexApi4 : LinkedInApi :=
  ⟨fun _ _ => .error "search failed".data,
   fun _ => .error "no profile".data,
   fun _ => .error "no contact info".data⟩

def cexRepos4 : WMRepositories :=
  ⟨fun u => if u = "uuid1".data then .ok cexC4c1 else .ok cexC4c2,
   fun _ _ _ => .ok true,
   [.ok [cexC4c1, cexC4c2]]⟩

/-- A healthy API/repository pair for the C4 witness: the first contact's
match attempt fails, a sibling configuration shows the abort. -/
def witApi4 : LinkedInApi :=
  ⟨fun _ _ => .ok [],
   fun _ => .error "no profile".data,
   fun _ => .error "no contact info".data⟩

/-- An API with one perfect candidate for threshold witnesses (C1). -/
def witProfile1 : ProfileData :=
  ⟨"Jane Smith".data, "Acme".data, "CFO".data⟩

def witApi1 : LinkedInApi :=
  ⟨fun _ _ => .ok [⟨"urn1".data⟩],
   fun u => if u = "urn1".data then .ok cexLp5a else .ok cexLp5b,
   fun _ => .ok ⟨"https://www.linkedin.com/in/janesmith".data⟩⟩

/-- A single-token profile (C6). -/
def witProfile6 : ProfileData := ⟨"Madonna".data, "Acme".data, "CFO".data⟩

/-- A candidate with an empty experience list (C9). -/
def witLp9 : LinkedInProfile :=
  ⟨"Jane".data, "Smith".data, [], "janesmith".data⟩

/-- An API whose single candidate's experience strings all normalize to
nonempty text (C10 witness: with empty targets the gate forces score 0). -/
def witApi10 : LinkedInApi :=
  ⟨fun _ _ => .ok [⟨"urn1".data⟩],
   fun _ => .ok cexLp5a,
   fun _ => .ok ⟨"https://www.linkedin.com/in/janesmith".data⟩⟩

/-- The match `find_linkedin_profile` returns on the C1 witness input. -/
def witBm1 : BestMatch :=
  builtMatch witProfile1 cexLp5a
    ⟨"https://www.linkedin.com/in/janesmith".data⟩

/-- The search hits of the C3/C5 witness run. -/
def witRs3 : List SearchHit := [⟨"urn1".data⟩, ⟨"urn2".data⟩]

/-- The match returned on the C3/C5 witness run. -/
def witBm3 : BestMatch :=
  builtMatch cexProfile5 cexLp5a
    ⟨"https://www.linkedin.com/in/janesmith".data⟩

/-- The call trace of the C3/C5 witness run. -/
def witTr3 : CallTrace :=
  ⟨[("jane".data, "smith".data)],
   ["urn1".data, "urn2".data], ["urn1".data, "urn2".data]⟩

/-! ## Theorems -/

lemma pyWordsGo_congr : ∀ (f1 f2 : Nat) (l : List Char),
    l.length ≤ f1 → l.length ≤ f2 → pyWordsGo f1 l = pyWordsGo f2 l
  | 0, 0, _, _, _ => rfl
  | 0, _ + 1, l, h1, _ => by
    have : l = [] := List.eq_nil_of_length_eq_zero (by omega)
    subst this
    rfl
  | _ + 1, 0, l, _, h2 => by
    have : l = [] := List.eq_nil_of_length_eq_zero (by omega)
    subst this
    rfl
  | _ + 1, _ + 1, [], _, _ => rfl
  | f1 + 1, f2 + 1, c :: cs, h1, h2 => by
    rw [pyWordsGo, pyWordsGo]
    have hd := ((List.dropWhile_sublist (l := cs)
      (fun d => !isPyWs d)).length_le)
    split
    · exact pyWordsGo_congr f1 f2 cs (by simp at h1; omega)
        (by simp at h2; omega)
    · rw [pyWordsGo_congr f1 f2 (cs.dropWhile (fun d => !isPyWs d))
        (by simp at h1; omega) (by simp at h2; omega)]

lemma pyWords_nil : pyWords [] = [] := rfl

lemma pyWords_cons (c : Char) (cs : List Char) :
    pyWords (c :: cs) =
      if isPyWs c then pyWords cs
      else (c :: cs.takeWhile (fun d => !isPyWs d)) ::
        pyWords (cs.dropWhile (fun d => !isPyWs d)) := by
  have hd := ((List.dropWhile_sublist (l := cs)
    (fun d => !isPyWs d)).length_le)
  rw [pyWords, List.length_cons, pyWordsGo]
  split
  · exact pyWordsGo_congr _ _ cs le_rfl (by omega)
  · rw [pyWordsGo_congr cs.length _ (cs.dropWhile (fun d => !isPyWs d))
      (by omega) le_rfl]
    rfl

/-! ### Idempotence machinery for `clean_text` -/

lemma takeWhile_all {p : Char → Bool} :
    ∀ {w : List Char}, (∀ c ∈ w, p c = true) → w.takeWhile p = w
  | [], _ => rfl
  | c :: cs, h => by
    simp only [List.takeWhile_cons, h c (by simp), if_true]
    exact congrArg (c :: ·) (takeWhile_all fun d hd => h d (by simp [hd]))

lemma dropWhile_all {p : Char → Bool} :
    ∀ {w : List Char}, (∀ c ∈ w, p c = true) → w.dropWhile p = []
  | [], _ => rfl
  | c :: cs, h => by
    simp only [List.dropWhile_cons, h c (by simp), if_true]
    exact dropWhile_all fun d hd => h d (by simp [hd])

lemma takeWhile_word_append {w rest : List Char}
    (h : ∀ c ∈ w, isPyWs c = false) :
    (w ++ ' ' :: rest).takeWhile (fun d => !isPyWs d) = w := by
  induction w with
  | nil => simp [List.takeWhile_cons, isPyWs]
  | cons c cs ih =>
    have hc : isPyWs c = false := h c (by simp)
    simp only [List.cons_append, List.takeWhile_cons, hc]
    simp [ih fun d hd => h d (by simp [hd])]

lemma dropWhile_word_append {w rest : List Char}
    (h : ∀ c ∈ w, isPyWs c = false) :
    (w ++ ' ' :: rest).dropWhile (fun d => !isPyWs d) = ' ' :: rest := by
  induction w with
  | nil => simp [List.dropWhile_cons, isPyWs]
  | cons c cs ih =>
    have hc : isPyWs c = false := h c (by simp)
    simp only [List.cons_append, List.dropWhile_cons, hc]
    simp [ih fun d hd => h d (by simp [hd])]

/-- `str.split()` of a single whitespace-free nonempty word. -/
lemma pyWords_single {w : List Char} (hne : w ≠ [])
    (h : ∀ c ∈ w, isPyWs c = false) : pyWords w = [w] := by
  obtain ⟨c, cs, rfl⟩ := List.exists_cons_of_ne_nil hne
  have hc : isPyWs c = false := h c (by simp)
  rw [pyWords_cons, if_neg (by simp [hc])]
  have h' : ∀ d ∈ cs, (fun d => !isPyWs d) d = true := by
    intro d hd; simp [h d (by simp [hd])]
  rw [takeWhile_all h', dropWhile_all h', pyWords_nil]

lemma pyWords_word_append {w rest : List Char} (hne : w ≠ [])
    (h : ∀ c ∈ w, isPyWs c = false) :
    pyWords (w ++ ' ' :: rest) = w :: pyWords rest := by
  obtain ⟨c, cs, rfl⟩ := List.exists_cons_of_ne_nil hne
  have hc : isPyWs c = false := h c (by simp)
  rw [List.cons_append, pyWords_cons, if_neg (by simp [hc])]
  have h' : ∀ d ∈ cs, isPyWs d = false := fun d hd => h d (by simp [hd])
  rw [takeWhile_word_append h', dropWhile_word_append h']
  have hsp : isPyWs ' ' = true := by decide
  rw [pyWords_cons, if_pos hsp]

/-- Splitting a space-join of nonempty whitespace-free words recovers them. -/
lemma pyWords_joinSpace : ∀ (ws : List (List Char)),
    (∀ w ∈ ws, w ≠ [] ∧ ∀ c ∈ w, isPyWs c = false) →
    pyWords (joinSpace ws) = ws
  | [], _ => by rw [joinSpace, pyWords_nil]
  | [w], h => by
    rw [joinSpace]
    exact pyWords_single (h w (by simp)).1 (h w (by simp)).2
  | w :: v :: ws, h => by
    rw [joinSpace, pyWords_word_append (h w (by simp)).1 (h w (by simp)).2]
    rw [pyWords_joinSpace (v :: ws) fun u hu => h u (by simp [hu])]

lemma pyWordsGo_sound : ∀ (fuel : Nat) (l : List Char), ∀ w ∈ pyWordsGo fuel l,
    w ≠ [] ∧ ∀ c ∈ w, isPyWs c = false ∧ c ∈ l
  | 0, l, w, hw => by simp [pyWordsGo] at hw
  | _ + 1, [], w, hw => by simp [pyWordsGo] at hw
  | fuel + 1, c :: cs, w, hw => by
    rw [pyWordsGo] at hw
    by_cases hc : isPyWs c
    · rw [if_pos hc] at hw
      obtain ⟨h1, h2⟩ := pyWordsGo_sound fuel cs w hw
      exact ⟨h1, fun d hd => ⟨(h2 d hd).1, by simp [(h2 d hd).2]⟩⟩
    · rw [if_neg hc] at hw
      rcases List.mem_cons.1 hw with rfl | hw
      · refine ⟨by simp, ?_⟩
        intro d hd
        rcases List.mem_cons.1 hd with rfl | hd
        · exact ⟨by simpa using hc, by simp⟩
        · have hmem := List.mem_takeWhile_imp hd
          have : d ∈ cs := List.takeWhile_subset _ hd
          exact ⟨by simpa using hmem, by simp [this]⟩
      · obtain ⟨h1, h2⟩ := pyWordsGo_sound fuel _ w hw
        refine ⟨h1, fun d hd => ⟨(h2 d hd).1, ?_⟩⟩
        have : d ∈ cs := List.dropWhile_subset _ ((h2 d hd).2)
        simp [this]

lemma pyWords_sound {l : List Char} : ∀ w ∈ pyWords l,
    w ≠ [] ∧ ∀ c ∈ w, isPyWs c = false ∧ c ∈ l :=
  pyWordsGo_sound l.length l

lemma mem_joinSpace : ∀ (ws : List (List Char)), ∀ c ∈ joinSpace ws,
    c = ' ' ∨ ∃ w ∈ ws, c ∈ w
  | [], c, hc => by simp [joinSpace] at hc
  | [w], c, hc => by
    rw [joinSpace] at hc
    exact Or.inr ⟨w, by simp, hc⟩
  | w :: v :: ws, c, hc => by
    rw [joinSpace] at hc
    rcases List.mem_append.1 hc with h | h
    · exact Or.inr ⟨w, by simp, h⟩
    · rcases List.mem_cons.1 h with rfl | h
      · exact Or.inl rfl
      · rcases mem_joinSpace (v :: ws) c h with h' | ⟨u, hu, hcu⟩
        · exact Or.inl h'
        · exact Or.inr ⟨u, by simp [hu], hcu⟩

lemma mem_subSpecial {l : List Char} {c : Char} (hc : c ∈ subSpecial l) :
    isKept c = true := by
  obtain ⟨d, _, hd⟩ := List.mem_map.1 hc
  by_cases h : isKept d
  · rw [if_pos h] at hd
    exact hd ▸ h
  · rw [if_neg h] at hd
    subst hd
    decide

lemma clean_text_def (s : List Char) : clean_text s =
    if s = [] then [] else joinSpace (pyWords (subSpecial (s.map pyLower))) :=
  rfl

/-- Every character of a `clean_text` output is kept by the character class
and is a fixed point of lower-casing. -/
lemma clean_text_chars {s : List Char} :
    ∀ c ∈ clean_text s, isKept c = true ∧ pyLower c = c := by
  intro c hc
  rw [clean_text_def] at hc
  split at hc
  · simp at hc
  · rcases mem_joinSpace _ c hc with rfl | ⟨w, hw, hcw⟩
    · exact ⟨by decide, by decide⟩
    · obtain ⟨-, h2⟩ := pyWords_sound w hw
      obtain ⟨hws, hmem⟩ := h2 c hcw
      have hkept := mem_subSpecial hmem
      refine ⟨hkept, ?_⟩
      have hk : ((97 ≤ c.toNat ∧ c.toNat ≤ 122) ∨ (48 ≤ c.toNat ∧ c.toNat ≤ 57)) ∨
          ((((c.toNat = 32 ∨ c.toNat = 9) ∨ c.toNat = 10) ∨ c.toNat = 13) ∨
            c.toNat = 11) ∨ c.toNat = 12 := by
        simpa [isKept, isPyWs] using hkept
      rw [pyLower, if_neg (by omega)]

lemma map_id_of {α : Type} (f : α → α) :
    ∀ (l : List α), (∀ c ∈ l, f c = c) → l.map f = l := by
  intro l h
  induction l with
  | nil => rfl
  | cons a as ih =>
    simp only [List.map_cons, h a (by simp)]
    rw [ih fun c hc => h c (by simp [hc])]

lemma clean_text_idem (s : List Char) :
    clean_text (clean_text s) = clean_text s := by
  by_cases hnil : clean_text s = []
  · rw [hnil, clean_text_def, if_pos rfl]
  · have hchars := clean_text_chars (s := s)
    rw [clean_text_def (clean_text s), if_neg hnil]
    have hmap : (clean_text s).map pyLower = clean_text s :=
      map_id_of _ _ fun c hc => (hchars c hc).2
    have hsub : subSpecial (clean_text s) = clean_text s :=
      map_id_of _ _ fun c hc => by
        simp only [if_pos ((hchars c hc).1)]
    rw [hmap, hsub]
    by_cases hs : s = []
    · simp [clean_text_def, hs] at hnil
    · conv_lhs =>
        rw [clean_text_def s, if_neg hs,
          pyWords_joinSpace _ fun w hw =>
            ⟨(pyWords_sound w hw).1, fun c hc =>
              ((pyWords_sound w hw).2 c hc).1⟩]
      rw [clean_text_def s, if_neg hs]

/-! ### The returned block lies inside the requested window -/

lemma foldl_inv {α β : Type} {P : β → Prop} {f : β → α → β} {l : List α}
    {init : β} (h0 : P init)
    (hstep : ∀ st x, x ∈ l → P st → P (f st x)) : P (l.foldl f init) := by
  induction l generalizing init with
  | nil => exact h0
  | cons a as ih =>
    exact ih (hstep init a (by simp) h0)
      fun st x hx => hstep st x (by simp [hx])

lemma flmInner_eq (old : Nat → Nat) (i : Nat) (st : FlmSt) (j : Nat) :
    flmInner old i st j =
      if st.bestsize < (if j = 0 then 0 else old (j - 1)) + 1 then
        ⟨i + 1 - ((if j = 0 then 0 else old (j - 1)) + 1),
          j + 1 - ((if j = 0 then 0 else old (j - 1)) + 1),
          (if j = 0 then 0 else old (j - 1)) + 1,
          fun m => if m = j then (if j = 0 then 0 else old (j - 1)) + 1
            else st.j2len m⟩
      else ⟨st.besti, st.bestj, st.bestsize,
        fun m => if m = j then (if j = 0 then 0 else old (j - 1)) + 1
          else st.j2len m⟩ := rfl

lemma flmRow_inv {a b : List Char} {alo ahi blo bhi i : Nat} {st : FlmSt}
    (hi : alo ≤ i) (hi2 : i < ahi) (h : ScanInv alo ahi blo bhi i st) :
    ScanInv alo ahi blo bhi (i + 1) (flmRow a b blo bhi st i) := by
  obtain ⟨hbest, hrow⟩ := h
  rw [flmRow]
  refine foldl_inv ⟨hbest, fun m => by simp⟩ ?_
  intro st' j hj hst'
  obtain ⟨hb', hr'⟩ := hst'
  have hjb : blo ≤ j ∧ j < bhi := by
    simpa using List.of_mem_filter hj
  rw [flmInner_eq]
  set k := (if j = 0 then 0 else st.j2len (j - 1)) + 1 with hkdef
  have hk1 : k ≤ i + 1 - alo := by
    rw [hkdef]
    split
    · omega
    · have := (hrow (j - 1)).1
      omega
  have hk2 : k ≤ j + 1 - blo := by
    rw [hkdef]
    split
    · omega
    · rcases Nat.eq_zero_or_pos (st.j2len (j - 1)) with hz | hz
      · omega
      · have := (hrow (j - 1)).2 (by omega)
        omega
  have hkpos : 1 ≤ k := by omega
  have hvals : ∀ m, (if m = j then k else st'.j2len m) ≤ i + 1 - alo ∧
      ((if m = j then k else st'.j2len m) ≠ 0 →
        blo ≤ m ∧ m < bhi ∧ (if m = j then k else st'.j2len m) ≤ m + 1 - blo) := by
    intro m
    by_cases hm : m = j
    · simp only [if_pos hm]
      exact ⟨hk1, fun _ => ⟨hm ▸ hjb.1, hm ▸ hjb.2, hm ▸ hk2⟩⟩
    · simp only [if_neg hm]
      exact (hr' m)
  by_cases hlt : st'.bestsize < k
  · rw [if_pos hlt]
    refine ⟨Or.inr ?_, hvals⟩
    show 1 ≤ k ∧ alo ≤ i + 1 - k ∧ blo ≤ j + 1 - k ∧
      (i + 1 - k) + k ≤ ahi ∧ (j + 1 - k) + k ≤ bhi
    exact ⟨hkpos, by omega, by omega, by omega, by omega⟩
  · rw [if_neg hlt]
    exact ⟨hb', hvals⟩

lemma scan_aux {a b : List Char} {alo ahi blo bhi : Nat} :
    ∀ (n i : Nat) (st : FlmSt), alo ≤ i → i + n ≤ ahi →
      ScanInv alo ahi blo bhi i st →
      ScanInv alo ahi blo bhi (i + n)
        ((List.range' i n).foldl (flmRow a b blo bhi) st)
  | 0, i, st, _, _, h => h
  | n + 1, i, st, hi, hn, h => by
    rw [List.range'_succ, List.foldl_cons]
    have hrec := scan_aux (a := a) (b := b) n (i + 1)
      (flmRow a b blo bhi st i) (by omega) (by omega)
      (flmRow_inv hi (by omega) h)
    have heq : i + (n + 1) = (i + 1) + n := by omega
    rw [heq]
    exact hrec

lemma flmScan_bestOk (a b : List Char) (alo ahi blo bhi : Nat) :
    BestOk alo ahi blo bhi (flmScan a b alo ahi blo bhi) := by
  have hinit : ScanInv alo ahi blo bhi alo ⟨alo, blo, 0, fun _ => 0⟩ :=
    ⟨Or.inl ⟨rfl, rfl, rfl⟩, fun m => by simp⟩
  rw [flmScan]
  rcases Nat.le_total alo ahi with hle | hle
  · exact (scan_aux (ahi - alo) alo _ le_rfl (by omega) hinit).1
  · have : ahi - alo = 0 := by omega
    rw [this]
    exact hinit.1

lemma extendLeft_spec (a b : List Char) (alo blo : Nat) :
    ∀ besti bestj bestsize,
      (alo ≤ besti → alo ≤ (extendLeft a b alo blo besti bestj bestsize).1) ∧
      (blo ≤ bestj → blo ≤ (extendLeft a b alo blo besti bestj bestsize).2.1) ∧
      (extendLeft a b alo blo besti bestj bestsize).1 +
        (extendLeft a b alo blo besti bestj bestsize).2.2 =
          besti + bestsize ∧
      (extendLeft a b alo blo besti bestj bestsize).2.1 +
        (extendLeft a b alo blo besti bestj bestsize).2.2 =
          bestj + bestsize ∧
      bestsize ≤ (extendLeft a b alo blo besti bestj bestsize).2.2 := by
  intro besti
  induction besti with
  | zero =>
    intro bestj bestsize
    exact ⟨fun h => h, fun h => h, rfl, rfl, le_rfl⟩
  | succ besti ih =>
    intro bestj bestsize
    rw [extendLeft]
    split
    · rename_i hcond
      have hspec := ih (bestj - 1) (bestsize + 1)
      refine ⟨fun _ => ?_, fun _ => ?_, by omega, by omega, by omega⟩
      · have := hspec.1 (by omega)
        omega
      · have := hspec.2.1 (by omega)
        omega
    · exact ⟨fun h => h, fun h => h, rfl, rfl, le_rfl⟩

/-- `extendLeft` is the identity when the loop guard `alo < besti` fails. -/
lemma extendLeft_stop (a b : List Char) (alo blo besti bestj bestsize : Nat)
    (h : besti ≤ alo) :
    extendLeft a b alo blo besti bestj bestsize = (besti, bestj, bestsize) := by
  cases besti with
  | zero => rfl
  | succ n => rw [extendLeft, if_neg (by omega)]

lemma extendRightGo_spec (a b : List Char) (bhi besti bestj : Nat) :
    ∀ (rem bestsize : Nat),
      bestsize ≤ extendRightGo a b bhi besti bestj rem bestsize ∧
      (extendRightGo a b bhi besti bestj rem bestsize = bestsize ∨
        (bestj + extendRightGo a b bhi besti bestj rem bestsize ≤ bhi ∧
          extendRightGo a b bhi besti bestj rem bestsize ≤ bestsize + rem))
  | 0, bestsize => ⟨le_rfl, Or.inl rfl⟩
  | rem + 1, bestsize => by
    rw [extendRightGo]
    split
    · rename_i hcond
      have hspec := extendRightGo_spec a b bhi besti bestj rem (bestsize + 1)
      refine ⟨by omega, Or.inr ?_⟩
      rcases hspec.2 with he | he
      · rw [he]
        omega
      · omega
    · exact ⟨le_rfl, Or.inl rfl⟩

lemma extendRight_spec (a b : List Char) (ahi bhi besti bestj bestsize : Nat) :
    bestsize ≤ extendRight a b ahi bhi besti bestj bestsize ∧
    (extendRight a b ahi bhi besti bestj bestsize = bestsize ∨
      (besti + extendRight a b ahi bhi besti bestj bestsize ≤ ahi ∧
        bestj + extendRight a b ahi bhi besti bestj bestsize ≤ bhi)) := by
  rw [extendRight]
  have hspec := extendRightGo_spec a b bhi besti bestj
    (ahi - (besti + bestsize)) bestsize
  refine ⟨hspec.1, ?_⟩
  rcases hspec.2 with he | he
  · exact Or.inl he
  · omega

lemma flm_eq (a b : List Char) (alo ahi blo bhi : Nat) :
    find_longest_match a b alo ahi blo bhi =
      ((extendLeft a b alo blo (flmScan a b alo ahi blo bhi).besti
          (flmScan a b alo ahi blo bhi).bestj
          (flmScan a b alo ahi blo bhi).bestsize).1,
        (extendLeft a b alo blo (flmScan a b alo ahi blo bhi).besti
          (flmScan a b alo ahi blo bhi).bestj
          (flmScan a b alo ahi blo bhi).bestsize).2.1,
        extendRight a b ahi bhi
          (extendLeft a b alo blo (flmScan a b alo ahi blo bhi).besti
            (flmScan a b alo ahi blo bhi).bestj
            (flmScan a b alo ahi blo bhi).bestsize).1
          (extendLeft a b alo blo (flmScan a b alo ahi blo bhi).besti
            (flmScan a b alo ahi blo bhi).bestj
            (flmScan a b alo ahi blo bhi).bestsize).2.1
          (extendLeft a b alo blo (flmScan a b alo ahi blo bhi).besti
            (flmScan a b alo ahi blo bhi).bestj
            (flmScan a b alo ahi blo bhi).bestsize).2.2) := rfl

/-- `find_longest_match` returns a block inside the requested window
whenever it is nonempty. -/
lemma flm_bounds {a b : List Char} {alo ahi blo bhi i j k : Nat}
    (h : find_longest_match a b alo ahi blo bhi = (i, j, k)) (hk : 1 ≤ k) :
    alo ≤ i ∧ blo ≤ j ∧ i + k ≤ ahi ∧ j + k ≤ bhi := by
  rw [flm_eq] at h
  set st := flmScan a b alo ahi blo bhi with hst
  have hbest := flmScan_bestOk a b alo ahi blo bhi
  rw [← hst] at hbest
  have hL := extendLeft_spec a b alo blo st.besti st.bestj st.bestsize
  set r := extendLeft a b alo blo st.besti st.bestj st.bestsize with hr
  have hR := extendRight_spec a b ahi bhi r.1 r.2.1 r.2.2
  have hi : r.1 = i := congrArg Prod.fst h
  have hj : r.2.1 = j := congrArg (fun p => p.2.1) h
  have hk' : extendRight a b ahi bhi r.1 r.2.1 r.2.2 = k :=
    congrArg (fun p => p.2.2) h
  rw [hk'] at hR
  subst hi
  subst hj
  rcases hbest with ⟨h0, hbi, hbj⟩ | ⟨h1, h2, h3, h4, h5⟩
  · -- empty best from the scan: extendLeft is the identity here
    have hid : r = (alo, blo, 0) := by
      rw [hr, hbi, hbj, h0]
      exact extendLeft_stop a b alo blo alo blo 0 le_rfl
    have hr1 : r.1 = alo := by rw [hid]
    have hr2 : r.2.1 = blo := by rw [hid]
    have hr3 : r.2.2 = 0 := by rw [hid]
    rw [hr1, hr2, hr3] at hR
    rw [hr1, hr2]
    rcases hR.2 with he | he
    · omega
    · exact ⟨le_rfl, le_rfl, he.1, he.2⟩
  · have e1 := hL.1 h2
    have e2 := hL.2.1 h3
    have e3 := hL.2.2.1
    have e4 := hL.2.2.2.1
    rcases hR.2 with he | he
    · omega
    · omega

/-- Any fuel above the window measure computes the same block-size sum:
the fuel in `matchesSum` is only a structural-recursion device. -/
lemma matchesSumGo_congr (a b : List Char) :
    ∀ (f1 f2 alo ahi blo bhi : Nat),
      (ahi - alo) + (bhi - blo) < f1 → (ahi - alo) + (bhi - blo) < f2 →
      matchesSumGo a b f1 alo ahi blo bhi = matchesSumGo a b f2 alo ahi blo bhi
  | 0, _, _, _, _, _, h1, _ => by omega
  | _ + 1, 0, _, _, _, _, _, h2 => by omega
  | f1 + 1, f2 + 1, alo, ahi, blo, bhi, h1, h2 => by
    rw [matchesSumGo, matchesSumGo]
    rcases hfl : find_longest_match a b alo ahi blo bhi with ⟨i, j, k⟩
    dsimp only
    by_cases hk : 0 < k
    · obtain ⟨hb1, hb2, hb3, hb4⟩ := flm_bounds hfl hk
      rw [if_pos hk, if_pos hk]
      have hL : (if alo < i ∧ blo < j then matchesSumGo a b f1 alo i blo j
          else 0) = (if alo < i ∧ blo < j then matchesSumGo a b f2 alo i blo j
          else 0) := by
        split
        · exact matchesSumGo_congr a b f1 f2 alo i blo j (by omega) (by omega)
        · rfl
      have hR : (if i + k < ahi ∧ j + k < bhi then
          matchesSumGo a b f1 (i + k) ahi (j + k) bhi else 0) =
          (if i + k < ahi ∧ j + k < bhi then
            matchesSumGo a b f2 (i + k) ahi (j + k) bhi else 0) := by
        split
        · exact matchesSumGo_congr a b f1 f2 (i + k) ahi (j + k) bhi
            (by omega) (by omega)
        · rfl
      rw [hL, hR]
    · rw [if_neg hk, if_neg hk]

lemma qmul_eq (a b : ℚ) : qmul a b = a * b := by
  rw [qmul, Rat.mkRat_eq_div]
  push_cast
  rw [← div_mul_div_comm, Rat.num_div_den, Rat.num_div_den]

lemma qadd_eq (a b : ℚ) : qadd a b = a + b := by
  have ha : ((a.den : ℚ)) ≠ 0 := by
    exact_mod_cast a.den_nz
  have hb : ((b.den : ℚ)) ≠ 0 := by
    exact_mod_cast b.den_nz
  rw [qadd, Rat.mkRat_eq_div]
  push_cast
  conv_rhs => rw [← Rat.num_div_den a, ← Rat.num_div_den b]
  rw [div_add_div _ _ ha hb]
  ring_nf

lemma sm_ratio_eq_div (a b : List Char) (h : a.length + b.length ≠ 0) :
    sm_ratio a b =
      (2 * matchesSum a b 0 a.length 0 b.length : ℚ) /
        (a.length + b.length) := by
  rw [sm_ratio, if_neg h, Rat.mkRat_eq_div]
  push_cast
  ring_nf

lemma selfRunMax_mono (a : List Char) : ∀ {r s : Nat}, r ≤ s →
    selfRunMax a r ≤ selfRunMax a s := by
  intro r s h
  induction s with
  | zero =>
    have : r = 0 := by omega
    simp [this]
  | succ s ih =>
    rcases Nat.lt_or_ge r (s + 1) with hlt | hge
    · calc selfRunMax a r ≤ selfRunMax a s := ih (by omega)
        _ ≤ _ := by rw [selfRunMax]; omega
    · have : r = s + 1 := by omega
      simp [this]

lemma selfRun_le_selfRunMax (a : List Char) {j r : Nat} (h : j < r) :
    selfRun a j ≤ selfRunMax a r := by
  calc selfRun a j ≤ selfRunMax a (j + 1) := by rw [selfRunMax]; omega
    _ ≤ selfRunMax a r := selfRunMax_mono a (by omega)

/-- Every position index lies below the length of `b`. -/
lemma mem_positionsOf {b : List Char} {c : Char} {j : Nat}
    (h : j ∈ positionsOf b c) : j < b.length ∧ b.getD j ' ' = c := by
  have h1 := List.mem_filter.1 h
  exact ⟨List.mem_range.1 h1.1, by simpa using h1.2⟩

lemma mem_b2j {b : List Char} {c : Char} {j : Nat} (h : j ∈ b2j b c) :
    j < b.length ∧ b.getD j ' ' = c := by
  rw [b2j] at h
  split at h
  · simp at h
  · exact mem_positionsOf h

/-- The window filter in `flmRow` is the identity on a full-window `b2j`
list. -/
lemma b2j_filter_full (b : List Char) (c : Char) :
    (b2j b c).filter (fun j => decide (0 ≤ j ∧ j < b.length)) = b2j b c := by
  apply List.filter_eq_self.mpr
  intro j hj
  have := (mem_b2j hj).1
  simp [this]

/-- `i` occurs in its own position list. -/
lemma self_mem_positionsOf {a : List Char} {i : Nat} (hi : i < a.length) :
    i ∈ positionsOf a (a.getD i ' ') := by
  rw [positionsOf]
  refine List.mem_filter.2 ⟨List.mem_range.2 hi, by simp⟩

/-- Split a filtered range at a satisfying index `i`. -/
lemma filter_range_split (p : Nat → Bool) {n i : Nat} (hi : i < n)
    (hp : p i = true) :
    (List.range n).filter p =
      ((List.range i).filter p) ++ i ::
        ((List.range' (i + 1) (n - (i + 1))).filter p) := by
  have h1 : List.range n = List.range (i + 1) ++ List.range' (i + 1) (n - (i + 1)) := by
    rw [List.range_eq_range', List.range_eq_range']
    have h2 := List.range'_append 0 (i + 1) (n - (i + 1)) 1
    simp only [Nat.one_mul, Nat.zero_add] at h2
    have h3 : n - (i + 1) + (i + 1) = n := by omega
    rw [h3] at h2
    exact h2.symm
  rw [h1, List.filter_append, List.range_succ, List.filter_append]
  simp [hp]

/-- `b2j` is the plain position list when nothing was purged. -/
lemma b2j_eq_positions_of_ne {b : List Char} {c : Char}
    (h : b2j b c ≠ []) : b2j b c = positionsOf b c := by
  rw [b2j]
  split
  · rw [b2j] at h
    split at h
    · exact absurd rfl h
    · rename_i h1 h2
      exact absurd h1 h2
  · rfl

lemma flmInner_best_of_not_lt (old : Nat → Nat) (i : Nat) (st : FlmSt)
    (j : Nat) (h : ¬ st.bestsize < (if j = 0 then 0 else old (j - 1)) + 1) :
    (flmInner old i st j).besti = st.besti ∧
    (flmInner old i st j).bestj = st.bestj ∧
    (flmInner old i st j).bestsize = st.bestsize := by
  rw [flmInner_eq, if_neg h]
  exact ⟨rfl, rfl, rfl⟩

lemma flmInner_best_of_lt (old : Nat → Nat) (i : Nat) (st : FlmSt)
    (j : Nat) (h : st.bestsize < (if j = 0 then 0 else old (j - 1)) + 1) :
    (flmInner old i st j).besti =
      i + 1 - ((if j = 0 then 0 else old (j - 1)) + 1) ∧
    (flmInner old i st j).bestj =
      j + 1 - ((if j = 0 then 0 else old (j - 1)) + 1) ∧
    (flmInner old i st j).bestsize =
      (if j = 0 then 0 else old (j - 1)) + 1 := by
  rw [flmInner_eq, if_pos h]
  exact ⟨rfl, rfl, rfl⟩

/-- After a row's inner fold, `newj2len` holds the chain value at every
processed position and is untouched elsewhere. -/
lemma foldl_flmInner_j2len (old : Nat → Nat) (i : Nat) :
    ∀ (L : List Nat) (st : FlmSt) (m : Nat),
      ((L.foldl (flmInner old i) st).j2len) m =
        if m ∈ L then (if m = 0 then 0 else old (m - 1)) + 1
        else st.j2len m
  | [], st, m => by simp
  | j :: L, st, m => by
    rw [List.foldl_cons, foldl_flmInner_j2len old i L _ m]
    have hstep : (flmInner old i st j).j2len m =
        if m = j then (if m = 0 then 0 else old (m - 1)) + 1
        else st.j2len m := by
      rw [flmInner_eq]
      by_cases hmj : m = j
      · subst hmj
        by_cases hb : st.bestsize < (if m = 0 then 0 else old (m - 1)) + 1
        · rw [if_pos hb]
        · rw [if_neg hb]
      · by_cases hb : st.bestsize < (if j = 0 then 0 else old (j - 1)) + 1
        · rw [if_pos hb]
          simp [hmj]
        · rw [if_neg hb]
          simp [hmj]
    by_cases hm : m ∈ L
    · simp [hm]
    · rw [if_neg hm, hstep]
      by_cases hmj : m = j
      · subst hmj
        simp
      · simp [hmj, hm]

/-- The fold of a row does not move the best block when no processed
position can beat it. -/
lemma foldl_flmInner_best_stable (old : Nat → Nat) (i : Nat)
    (L : List Nat) (st : FlmSt)
    (h : ∀ j ∈ L, (if j = 0 then 0 else old (j - 1)) + 1 ≤ st.bestsize) :
    (L.foldl (flmInner old i) st).besti = st.besti ∧
    (L.foldl (flmInner old i) st).bestj = st.bestj ∧
    (L.foldl (flmInner old i) st).bestsize = st.bestsize := by
  refine foldl_inv (P := fun (st' : FlmSt) => st'.besti = st.besti ∧
    st'.bestj = st.bestj ∧ st'.bestsize = st.bestsize) ⟨rfl, rfl, rfl⟩ ?_
  intro st' j hj hst'
  have hle := h j hj
  have := flmInner_best_of_not_lt old i st' j (by omega)
  omega

lemma flmInner_j2len (old : Nat → Nat) (i : Nat) (st : FlmSt) (j m : Nat) :
    (flmInner old i st j).j2len m =
      if m = j then (if m = 0 then 0 else old (m - 1)) + 1
      else st.j2len m := by
  rw [flmInner_eq]
  by_cases hmj : m = j
  · subst hmj
    by_cases hb : st.bestsize < (if m = 0 then 0 else old (m - 1)) + 1
    · rw [if_pos hb]
    · rw [if_neg hb]
  · by_cases hb : st.bestsize < (if j = 0 then 0 else old (j - 1)) + 1
    · rw [if_pos hb]
      simp [hmj]
    · rw [if_neg hb]
      simp [hmj]

lemma positionsOf_split (a : List Char) {i : Nat} (hi : i < a.length) :
    positionsOf a (a.getD i ' ') =
      ((List.range i).filter (fun j => a.getD j ' ' = a.getD i ' ')) ++
        i :: ((List.range' (i + 1) (a.length - (i + 1))).filter
          (fun j => a.getD j ' ' = a.getD i ' ')) := by
  rw [positionsOf]
  exact filter_range_split _ hi (by simp)

lemma selfRow {a : List Char} {r : Nat} {st : FlmSt} (hr : r < a.length)
    (h : SelfInv a r st) :
    SelfInv a (r + 1) (flmRow a a 0 a.length st r) := by
  obtain ⟨hdiag, hbest, hkey, hrow, hex⟩ := h
  have hrun0 : selfRun a r = (if b2j a (a.getD r ' ') = [] then 0
      else (if r = 0 then 0 else selfRun a (r - 1)) + 1) := by
    cases r with
    | zero =>
      rw [selfRun]
      split <;> simp
    | succ r' =>
      rw [selfRun]
      simp
  rw [flmRow, b2j_filter_full]
  by_cases hjunk : b2j a (a.getD r ' ') = []
  · rw [hjunk, List.foldl_nil]
    have hz : selfRun a r = 0 := by rw [hrun0, if_pos hjunk]
    refine ⟨hdiag, ?_, fun m => Nat.zero_le _, fun m => Nat.zero_le _, ?_⟩
    · show st.bestsize = selfRunMax a (r + 1)
      rw [selfRunMax, hz, Nat.max_zero]
      exact hbest
    · intro r' hr'
      have hrr : r' = r := by omega
      subst hrr
      exact hz.symm
  · have hchar_nonjunk : ∀ j, a.getD j ' ' = a.getD r ' ' →
        b2j a (a.getD j ' ') ≠ [] := by
      intro j hj
      rw [hj]
      exact hjunk
    have hrunr : selfRun a r = (if r = 0 then 0 else selfRun a (r - 1)) + 1 := by
      rw [hrun0, if_neg hjunk]
    have hrunj : ∀ j, a.getD j ' ' = a.getD r ' ' →
        selfRun a j = (if j = 0 then 0 else selfRun a (j - 1)) + 1 := by
      intro j hj
      cases j with
      | zero =>
        rw [selfRun, if_neg (hchar_nonjunk 0 hj)]
        simp
      | succ j' =>
        rw [selfRun, if_neg (hchar_nonjunk _ hj)]
        simp
    have hkv_key : ∀ j, a.getD j ' ' = a.getD r ' ' →
        (if j = 0 then 0 else st.j2len (j - 1)) + 1 ≤ selfRun a j := by
      intro j hj
      rw [hrunj j hj]
      have := hkey (j - 1)
      by_cases hj0 : j = 0
      · simp [hj0]
      · simp only [if_neg hj0]
        omega
    have hkv_row : ∀ j,
        (if j = 0 then 0 else st.j2len (j - 1)) + 1 ≤ selfRun a r := by
      intro j
      rw [hrunr]
      have := hrow (j - 1)
      by_cases hj0 : j = 0
      · simp [hj0]
      · simp only [if_neg hj0]
        omega
    have hkv_diag :
        (if r = 0 then 0 else st.j2len (r - 1)) + 1 = selfRun a r := by
      rw [hrunr]
      cases r with
      | zero => simp
      | succ r' =>
        have := hex r' rfl
        simp only [Nat.succ_ne_zero, if_false, Nat.succ_sub_one]
        omega
    rw [b2j_eq_positions_of_ne hjunk, positionsOf_split a hr,
      List.foldl_append, List.foldl_cons]
    have hL1mem : ∀ j ∈ (List.range r).filter
        (fun j => a.getD j ' ' = a.getD r ' '),
        j < r ∧ a.getD j ' ' = a.getD r ' ' := by
      intro j hj
      have h1 := List.mem_filter.1 hj
      exact ⟨List.mem_range.1 h1.1, by simpa using h1.2⟩
    have hL2mem : ∀ j ∈ (List.range' (r + 1) (a.length - (r + 1))).filter
        (fun j => a.getD j ' ' = a.getD r ' '),
        r < j ∧ a.getD j ' ' = a.getD r ' ' := by
      intro j hj
      have h1 := List.mem_filter.1 hj
      have h2 := List.mem_range'_1.1 h1.1
      exact ⟨by omega, by simpa using h1.2⟩
    set L1 := (List.range r).filter
      (fun j => a.getD j ' ' = a.getD r ' ') with hL1def
    set L2 := (List.range' (r + 1) (a.length - (r + 1))).filter
      (fun j => a.getD j ' ' = a.getD r ' ') with hL2def
    set init : FlmSt := ⟨st.besti, st.bestj, st.bestsize, fun _ => 0⟩
      with hinitdef
    set st1 := L1.foldl (flmInner st.j2len r) init with hst1def
    set st2 := flmInner st.j2len r st1 r with hst2def
    -- phase 1: positions left of the diagonal never beat the best
    have hst1best := foldl_flmInner_best_stable st.j2len r L1 init ?hstable1
    case hstable1 =>
      intro j hj
      obtain ⟨hjr, hjc⟩ := hL1mem j hj
      calc (if j = 0 then 0 else st.j2len (j - 1)) + 1
          ≤ selfRun a j := hkv_key j hjc
        _ ≤ selfRunMax a r := selfRun_le_selfRunMax a hjr
        _ = st.bestsize := hbest.symm
    rw [← hst1def] at hst1best
    have hiniti : init.besti = st.besti := rfl
    have hinitj : init.bestj = st.bestj := rfl
    have hinits : init.bestsize = st.bestsize := rfl
    obtain ⟨hst1i, hst1j, hst1s⟩ := hst1best
    rw [hiniti] at hst1i
    rw [hinitj] at hst1j
    rw [hinits] at hst1s
    -- the diagonal step
    have hst2best : st2.besti = st2.bestj ∧
        st2.bestsize = selfRunMax a (r + 1) := by
      by_cases hup : st1.bestsize < (if r = 0 then 0 else st.j2len (r - 1)) + 1
      · have hlt := flmInner_best_of_lt st.j2len r st1 r hup
        rw [← hst2def] at hlt
        refine ⟨by rw [hlt.1, hlt.2.1], ?_⟩
        rw [hlt.2.2, hkv_diag, selfRunMax]
        have hstrict : selfRunMax a r < selfRun a r := by
          rw [← hkv_diag]
          omega
        exact (Nat.max_eq_right (Nat.le_of_lt hstrict)).symm
      · have hle := flmInner_best_of_not_lt st.j2len r st1 r hup
        rw [← hst2def] at hle
        refine ⟨by rw [hle.1, hle.2.1, hst1i, hst1j, hdiag], ?_⟩
        rw [hle.2.2, hst1s, hbest, selfRunMax]
        have hsle : selfRun a r ≤ selfRunMax a r := by
          rw [← hkv_diag]
          omega
        exact (Nat.max_eq_left hsle).symm
    -- phase 3: positions right of the diagonal never beat the best
    have hst3best := foldl_flmInner_best_stable st.j2len r L2 st2 ?hstable2
    case hstable2 =>
      intro j hj
      calc (if j = 0 then 0 else st.j2len (j - 1)) + 1
          ≤ selfRun a r := hkv_row j
        _ ≤ selfRunMax a (r + 1) := by rw [selfRunMax]; omega
        _ = _ := hst2best.2.symm
    obtain ⟨hst3i, hst3j, hst3s⟩ := hst3best
    -- the value table of the finished row
    have hdesc : ∀ m, ((L2.foldl (flmInner st.j2len r) st2).j2len) m =
        if (m ∈ L2 ∨ m = r ∨ m ∈ L1) then
          (if m = 0 then 0 else st.j2len (m - 1)) + 1
        else 0 := by
      intro m
      rw [foldl_flmInner_j2len, hst2def, flmInner_j2len, hst1def,
        foldl_flmInner_j2len]
      by_cases h1 : m ∈ L2
      · simp [h1]
      · rw [if_neg h1]
        by_cases h2 : m = r
        · simp [h1, h2]
        · rw [if_neg h2]
          by_cases h3 : m ∈ L1
          · simp [h1, h2, h3]
          · simp [h1, h2, h3]
    refine ⟨by omega, by omega, ?_, ?_, ?_⟩
    · intro m
      rw [hdesc m]
      split
      · rename_i hmem
        rcases hmem with hm | hm | hm
        · exact hkv_key m (hL2mem m hm).2
        · subst hm
          rw [hkv_diag]
        · exact hkv_key m (hL1mem m hm).2
      · exact Nat.zero_le _
    · intro m
      rw [hdesc m]
      have hif : (if r + 1 = 0 then 0 else selfRun a (r + 1 - 1)) =
          selfRun a r := by simp
      rw [hif]
      split
      · exact hkv_row m
      · exact Nat.zero_le _
    · intro r' hr'
      have hrr : r' = r := by omega
      subst hrr
      rw [hdesc r', if_pos (Or.inr (Or.inl rfl)), hkv_diag]

lemma selfScan_aux {a : List Char} :
    ∀ (k r : Nat) (st : FlmSt), r + k ≤ a.length →
      SelfInv a r st →
      SelfInv a (r + k) ((List.range' r k).foldl (flmRow a a 0 a.length) st)
  | 0, _, _, _, h => h
  | k + 1, r, st, hk, h => by
    rw [List.range'_succ, List.foldl_cons]
    have hrec := selfScan_aux k (r + 1) (flmRow a a 0 a.length st r)
      (by omega) (selfRow (by omega) h)
    have heq : r + (k + 1) = (r + 1) + k := by omega
    rw [heq]
    exact hrec

lemma flmScan_self (a : List Char) :
    SelfInv a a.length (flmScan a a 0 a.length 0 a.length) := by
  have hinit : SelfInv a 0 ⟨0, 0, 0, fun _ => 0⟩ :=
    ⟨rfl, rfl, fun _ => Nat.zero_le _, fun _ => Nat.zero_le _,
      fun r' h => by omega⟩
  have hrun := selfScan_aux a.length 0 ⟨0, 0, 0, fun _ => 0⟩ (by omega) hinit
  rw [flmScan]
  simpa using hrun

lemma extendLeft_self (a : List Char) :
    ∀ (d s : Nat), extendLeft a a 0 0 d d s = (0, 0, d + s)
  | 0, _ => by simp [extendLeft]
  | d + 1, s => by
    rw [extendLeft, if_pos ⟨by omega, by omega, rfl⟩]
    simp only [Nat.add_sub_cancel]
    have harith : d + (s + 1) = (d + 1) + s := by omega
    rw [extendLeft_self a d (s + 1), harith]

lemma extendRightGo_self (a : List Char) :
    ∀ (rem m : Nat), m + rem = a.length →
      extendRightGo a a a.length 0 0 rem m = a.length
  | 0, m, h => by
    rw [extendRightGo]
    omega
  | rem + 1, m, h => by
    rw [extendRightGo, if_pos ⟨by omega, rfl⟩]
    exact extendRightGo_self a rem (m + 1) (by omega)

/-- `find_longest_match` of a sequence against itself is the full diagonal
block. -/
lemma flm_self (a : List Char) :
    find_longest_match a a 0 a.length 0 a.length = (0, 0, a.length) := by
  rw [flm_eq]
  obtain ⟨hdiag, -, -, -, -⟩ := flmScan_self a
  have hbOk := flmScan_bestOk a a 0 a.length 0 a.length
  set st := flmScan a a 0 a.length 0 a.length with hstdef
  have hds : st.bestj + st.bestsize ≤ a.length := by
    rcases hbOk with ⟨h0, _, hbj⟩ | ⟨_, _, _, _, h5⟩
    · rw [hbj, h0]
      omega
    · exact h5
  rw [hdiag, extendLeft_self a st.bestj st.bestsize]
  have hE : extendRight a a a.length a.length 0 0
      (st.bestj + st.bestsize) = a.length := by
    rw [extendRight]
    exact extendRightGo_self a _ _ (by omega)
  rw [hE]

lemma matchesSum_self (a : List Char) :
    matchesSum a a 0 a.length 0 a.length = a.length := by
  rw [matchesSum]
  simp only [Nat.sub_zero]
  rw [matchesSumGo, flm_self a]
  dsimp only
  by_cases hn : 0 < a.length
  · rw [if_pos hn, if_neg (by omega), if_neg (by omega)]
    omega
  · rw [if_neg hn]
    omega

/-- `SequenceMatcher(None, a, a).ratio()` is always `1.0`. -/
lemma sm_ratio_self (a : List Char) : sm_ratio a a = 1 := by
  rw [sm_ratio]
  by_cases h : a.length + a.length = 0
  · rw [if_pos h]
  · rw [if_neg h, matchesSum_self, Rat.mkRat_eq_div]
    have hne : ((a.length + a.length : ℕ) : ℚ) ≠ 0 := by exact_mod_cast h
    push_cast at hne ⊢
    rw [two_mul]
    exact div_self hne

lemma SIMILARITY_THRESHOLD_eq : SIMILARITY_THRESHOLD = 7 / 10 := by
  rw [SIMILARITY_THRESHOLD, Rat.mkRat_eq_div]
  norm_num

lemma NAME_THRESHOLD_eq : NAME_THRESHOLD = 8 / 10 := by
  rw [NAME_THRESHOLD, Rat.mkRat_eq_div]
  norm_num

lemma EXPERIENCE_THRESHOLD_eq : EXPERIENCE_THRESHOLD = 3 / 10 := by
  rw [EXPERIENCE_THRESHOLD, Rat.mkRat_eq_div]
  norm_num

lemma HIGH_CONFIDENCE_eq : HIGH_CONFIDENCE = 8 / 10 := by
  rw [HIGH_CONFIDENCE, Rat.mkRat_eq_div]
  norm_num

/-! ## Properties of the candidate loop -/

/-- A successful candidate loop returns the first-encountered maximum:
every considered candidate scores at most the final score; the final state
either is the initial one, or records a candidate that strictly improved on
the initial score and strictly beats every candidate before it. -/
lemma findLoop_max (api : LinkedInApi) (profile : ProfileData) :
    ∀ (rs : List SearchHit) (b0 : Option BestMatch) (s0 : ℚ) (tr0 : CallTrace)
      (best : Option BestMatch) (s : ℚ) (tr : CallTrace),
      findLoop api profile rs b0 s0 tr0 = (.ok (best, s), tr) →
      s0 ≤ s ∧
      (∀ r' ∈ rs, r'.urn_id ≠ [] → ∀ lp',
        api.get_profile r'.urn_id = .ok lp' →
        calculate_similarity profile lp' ≤ s) ∧
      ((best = b0 ∧ s = s0) ∨
        (∃ bm pre rr post, best = some bm ∧ bm.score = s ∧ s0 < s ∧
          rs = pre ++ rr :: post ∧ rr.urn_id ≠ [] ∧
          (∃ lp ci, api.get_profile rr.urn_id = .ok lp ∧
            api.get_profile_contact_info rr.urn_id = .ok ci ∧
            bm = builtMatch profile lp ci ∧
            s = calculate_similarity profile lp) ∧
          (∀ r' ∈ pre, r'.urn_id ≠ [] → ∀ lp',
            api.get_profile r'.urn_id = .ok lp' →
            calculate_similarity profile lp' < s)))
  | [], b0, s0, tr0, best, s, tr, h => by
    rw [findLoop] at h
    have h1 := congrArg Prod.fst h
    simp only [Prod.fst, Except.ok.injEq, Prod.mk.injEq] at h1
    obtain ⟨hb, hs⟩ := h1
    subst hb
    subst hs
    exact ⟨le_rfl, by simp, Or.inl ⟨rfl, rfl⟩⟩
  | r :: rs, b0, s0, tr0, best, s, tr, h => by
    simp only [findLoop] at h
    by_cases hurn : r.urn_id = []
    · rw [if_pos hurn] at h
      obtain ⟨hle, hall, hwin⟩ := findLoop_max api profile rs b0 s0 tr0 best s tr h
      refine ⟨hle, ?_, ?_⟩
      · intro r' hr' hru lp' hlp'
        rcases List.mem_cons.1 hr' with rfl | hr'
        · exact absurd hurn hru
        · exact hall r' hr' hru lp' hlp'
      · rcases hwin with hl | ⟨bm, pre, rr, post, h1, h2, h3, h4, h5, h6, h7⟩
        · exact Or.inl hl
        · refine Or.inr ⟨bm, r :: pre, rr, post, h1, h2, h3, by rw [h4]; rfl, h5, h6, ?_⟩
          intro r' hr' hru lp' hlp'
          rcases List.mem_cons.1 hr' with rfl | hr'
          · exact absurd hurn hru
          · exact h7 r' hr' hru lp' hlp'
    · rw [if_neg hurn] at h
      rcases hgp : api.get_profile r.urn_id with e | lp
      · rw [hgp] at h
        simp at h
      · rw [hgp] at h
        rcases hci : api.get_profile_contact_info r.urn_id with e | ci
        · rw [hci] at h
          simp at h
        · rw [hci] at h
          simp only at h
          by_cases hsc : s0 < calculate_similarity profile lp
          · rw [if_pos hsc] at h
            obtain ⟨hle, hall, hwin⟩ := findLoop_max api profile rs _ _ _ best s tr h
            have hcalc_le : calculate_similarity profile lp ≤ s := hle
            refine ⟨le_of_lt (lt_of_lt_of_le hsc hcalc_le), ?_, ?_⟩
            · intro r' hr' hru lp' hlp'
              rcases List.mem_cons.1 hr' with rfl | hr'
              · rw [hgp] at hlp'
                obtain rfl := Except.ok.inj hlp'
                exact hcalc_le
              · exact hall r' hr' hru lp' hlp'
            · rcases hwin with ⟨hb, hs⟩ | ⟨bm, pre, rr, post, h1, h2, h3, h4, h5, h6, h7⟩
              · refine Or.inr ⟨_, [], r, rs, hb, ?_, ?_, rfl, hurn,
                  ⟨lp, ci, hgp, hci, rfl, hs⟩, by simp⟩
                · rw [hs]
                · rw [hs]
                  exact hsc
              · refine Or.inr ⟨bm, r :: pre, rr, post, h1, h2,
                  lt_trans hsc h3, by rw [h4]; rfl, h5, h6, ?_⟩
                intro r' hr' hru lp' hlp'
                rcases List.mem_cons.1 hr' with rfl | hr'
                · rw [hgp] at hlp'
                  obtain rfl := Except.ok.inj hlp'
                  exact h3
                · exact h7 r' hr' hru lp' hlp'
          · rw [if_neg hsc] at h
            obtain ⟨hle, hall, hwin⟩ := findLoop_max api profile rs b0 s0 _ best s tr h
            refine ⟨hle, ?_, ?_⟩
            · intro r' hr' hru lp' hlp'
              rcases List.mem_cons.1 hr' with rfl | hr'
              · rw [hgp] at hlp'
                obtain rfl := Except.ok.inj hlp'
                calc calculate_similarity profile lp ≤ s0 := not_lt.1 hsc
                  _ ≤ s := hle
              · exact hall r' hr' hru lp' hlp'
            · rcases hwin with hl | ⟨bm, pre, rr, post, h1, h2, h3, h4, h5, h6, h7⟩
              · exact Or.inl hl
              · refine Or.inr ⟨bm, r :: pre, rr, post, h1, h2, h3,
                  by rw [h4]; rfl, h5, h6, ?_⟩
                intro r' hr' hru lp' hlp'
                rcases List.mem_cons.1 hr' with rfl | hr'
                · rw [hgp] at hlp'
                  obtain rfl := Except.ok.inj hlp'
                  exact lt_of_le_of_lt (not_lt.1 hsc) h3
                · exact h7 r' hr' hru lp' hlp'

/-- A successful candidate loop records one `get_profile` call and one
`get_profile_contact_info` call, in hit order, for exactly the hits with a
truthy `urn_id`, and no search calls. -/
lemma findLoop_trace (api : LinkedInApi) (profile : ProfileData) :
    ∀ (rs : List SearchHit) (b0 : Option BestMatch) (s0 : ℚ) (tr0 : CallTrace)
      (pr : Option BestMatch × ℚ) (tr : CallTrace),
      findLoop api profile rs b0 s0 tr0 = (.ok pr, tr) →
      tr.search_calls = tr0.search_calls ∧
      tr.profile_calls = tr0.profile_calls ++
        (rs.filter (fun r => r.urn_id ≠ [])).map (fun r => r.urn_id) ∧
      tr.contact_info_calls = tr0.contact_info_calls ++
        (rs.filter (fun r => r.urn_id ≠ [])).map (fun r => r.urn_id)
  | [], b0, s0, tr0, pr, tr, h => by
    rw [findLoop] at h
    have htr := congrArg Prod.snd h
    simp only [Prod.snd] at htr
    obtain rfl := htr
    exact ⟨rfl, by simp, by simp⟩
  | r :: rs, b0, s0, tr0, pr, tr, h => by
    simp only [findLoop] at h
    by_cases hurn : r.urn_id = []
    · rw [if_pos hurn] at h
      obtain ⟨h1, h2, h3⟩ := findLoop_trace api profile rs b0 s0 tr0 pr tr h
      refine ⟨h1, ?_, ?_⟩
      · rw [h2]
        simp [List.filter_cons, hurn]
      · rw [h3]
        simp [List.filter_cons, hurn]
    · rw [if_neg hurn] at h
      rcases hgp : api.get_profile r.urn_id with e | lp
      · rw [hgp] at h
        simp at h
      · rw [hgp] at h
        rcases hci : api.get_profile_contact_info r.urn_id with e | ci
        · rw [hci] at h
          simp at h
        · rw [hci] at h
          simp only at h
          by_cases hsc : s0 < calculate_similarity profile lp
          · rw [if_pos hsc] at h
            obtain ⟨h1, h2, h3⟩ := findLoop_trace api profile rs _ _ _ pr tr h
            refine ⟨h1, ?_, ?_⟩
            · rw [h2]
              show tr0.profile_calls ++ [r.urn_id] ++ _ = _
              simp [List.filter_cons, hurn]
            · rw [h3]
              show tr0.contact_info_calls ++ [r.urn_id] ++ _ = _
              simp [List.filter_cons, hurn]
          · rw [if_neg hsc] at h
            obtain ⟨h1, h2, h3⟩ := findLoop_trace api profile rs _ _ _ pr tr h
            refine ⟨h1, ?_, ?_⟩
            · rw [h2]
              show tr0.profile_calls ++ [r.urn_id] ++ _ = _
              simp [List.filter_cons, hurn]
            · rw [h3]
              show tr0.contact_info_calls ++ [r.urn_id] ++ _ = _
              simp [List.filter_cons, hurn]

/-- Structure of a successful `find_linkedin_profile` result: the threshold
held and the returned match is the earliest maximum over the first five
search hits. -/
lemma find_some_spec (api : LinkedInApi) (profile : ProfileData)
    (m : BestMatch)
    (h : (find_linkedin_profile api profile).1 = .ok (some m)) :
    SIMILARITY_THRESHOLD ≤ m.score ∧ 0 < m.score ∧
    ∃ rs, api.search_people
        (clean_text ((pySplit1 profile.name).getD 0 []))
        (clean_text ((pySplit1 profile.name).getD 1 [])) = .ok rs ∧
      ∃ pre rr post, rs.take 5 = pre ++ rr :: post ∧ rr.urn_id ≠ [] ∧
        (∃ lp ci, api.get_profile rr.urn_id = .ok lp ∧
          api.get_profile_contact_info rr.urn_id = .ok ci ∧
          m = builtMatch profile lp ci ∧
          m.score = calculate_similarity profile lp) ∧
        (∀ r' ∈ rs.take 5, r'.urn_id ≠ [] → ∀ lp',
          api.get_profile r'.urn_id = .ok lp' →
          calculate_similarity profile lp' ≤ m.score) ∧
        (∀ r' ∈ pre, r'.urn_id ≠ [] → ∀ lp',
          api.get_profile r'.urn_id = .ok lp' →
          calculate_similarity profile lp' < m.score) := by
  simp only [find_linkedin_profile] at h
  by_cases h1 : (pySplit1 profile.name).length ≠ 2
  · rw [if_pos h1] at h
    simp at h
  · rw [if_neg h1] at h
    split at h
    · simp at h
    · rename_i rs hs
      by_cases h2 : rs = []
      · rw [if_pos h2] at h
        simp at h
      · rw [if_neg h2] at h
        split at h
        · simp at h
        · rename_i best bscore tr' heq
          split at h
          · rename_i bm
            split at h
            · rename_i hth
              simp only [Prod.fst, Except.ok.injEq, Option.some.injEq] at h
              subst h
              obtain ⟨hle, hall, hwin⟩ :=
                findLoop_max _ _ _ _ _ _ _ _ _ heq
              rcases hwin with ⟨hb, hs0⟩ | ⟨bm', pre, rr, post, hb, hsc, hpos,
                hdec, hru, hbuilt, hstrict⟩
              · simp at hb
              · obtain rfl := Option.some.inj hb
                obtain ⟨lp, ci, hgp, hci, hbm', hscalc⟩ := hbuilt
                refine ⟨hth, by rw [hsc]; exact hpos, rs, hs, pre, rr, post,
                  hdec, hru,
                  ⟨lp, ci, hgp, hci, hbm', hsc.trans hscalc⟩, ?_, ?_⟩
                · intro r' hr' hru' lp' hlp'
                  rw [hsc]
                  exact hall r' hr' hru' lp' hlp'
                · intro r' hr' hru' lp' hlp'
                  rw [hsc]
                  exact hstrict r' hr' hru' lp' hlp'
            · simp at h
          · simp at h

/-- A successful `find_linkedin_profile` run past the guard, the search and
the empty-result check records one `get_profile` and one
`get_profile_contact_info` call, in hit order, for exactly the first five
hits with a truthy `urn_id`. -/
lemma find_ok_trace (api : LinkedInApi) (profile : ProfileData)
    (res : Option BestMatch) (tr : CallTrace) (rs : List SearchHit)
    (hlen : (pySplit1 profile.name).length = 2)
    (hs : api.search_people
        (clean_text ((pySplit1 profile.name).getD 0 []))
        (clean_text ((pySplit1 profile.name).getD 1 [])) = .ok rs)
    (hne : rs ≠ [])
    (h : find_linkedin_profile api profile = (.ok res, tr)) :
    tr.profile_calls =
      ((rs.take 5).filter (fun r => r.urn_id ≠ [])).map (fun r => r.urn_id) ∧
    tr.contact_info_calls =
      ((rs.take 5).filter (fun r => r.urn_id ≠ [])).map (fun r => r.urn_id) := by
  simp only [find_linkedin_profile] at h
  rw [if_neg (not_not_intro hlen)] at h
  split at h
  · rename_i e he
    rw [hs] at he
    exact absurd he (by simp)
  · rename_i rs' hrs'
    rw [hs] at hrs'
    obtain rfl := Except.ok.inj hrs'
    rw [if_neg hne] at h
    split at h
    · exact absurd (congrArg Prod.fst h) (by simp)
    · rename_i best bscore tr' heq
      obtain ⟨h1, h2, h3⟩ :=
        findLoop_trace api profile (rs.take 5) none 0 _ (best, bscore) tr' heq
      have htr : tr' = tr := by
        split at h
        · split at h
          · exact congrArg Prod.snd h
          · exact congrArg Prod.snd h
        · exact congrArg Prod.snd h
      subst htr
      exact ⟨by simpa [emptyTrace] using h2, by simpa [emptyTrace] using h3⟩

/-- A match is only returned once the guard, the search and the empty-result
check have all passed. -/
lemma find_some_shape (api : LinkedInApi) (profile : ProfileData)
    (m : BestMatch) (tr : CallTrace)
    (h : find_linkedin_profile api profile = (.ok (some m), tr)) :
    (pySplit1 profile.name).length = 2 ∧
    ∃ rs, api.search_people
        (clean_text ((pySplit1 profile.name).getD 0 []))
        (clean_text ((pySplit1 profile.name).getD 1 [])) = .ok rs ∧
      rs ≠ [] := by
  simp only [find_linkedin_profile] at h
  by_cases h1 : (pySplit1 profile.name).length ≠ 2
  · rw [if_pos h1] at h
    exact absurd (congrArg Prod.fst h) (by simp)
  · rw [if_neg h1] at h
    refine ⟨not_not.1 h1, ?_⟩
    split at h
    · exact absurd (congrArg Prod.fst h) (by simp)
    · rename_i rs hrs
      by_cases h2 : rs = []
      · rw [if_pos h2] at h
        exact absurd (congrArg Prod.fst h) (by simp)
      · exact ⟨rs, hrs, h2⟩

/-- With an empty left-hand sequence `find_longest_match` finds nothing, so
the total matched size is `0`. -/
lemma matchesSum_nil_left (y : List Char) :
    matchesSum [] y 0 0 0 y.length = 0 := rfl

/-- `ratio` of the empty string against a nonempty string is `0`. -/
lemma sm_ratio_nil_left (y : List Char) (hy : y ≠ []) :
    sm_ratio [] y = 0 := by
  have hl : ¬(0 + y.length = 0) := by
    simp [List.length_eq_zero, hy]
  simp only [sm_ratio, List.length_nil]
  rw [if_neg hl, matchesSum_nil_left, Rat.mkRat_eq_div]
  norm_num

/-- One `_analyze_experience` step against targets that normalize to the
empty string keeps both similarity maxima at `0`, provided the entry's own
strings do not also normalize to empty. -/
lemma analyzeStep_zero (st : ExperienceAnalysis) (e : ExperienceEntry)
    (hc : st.company_similarity = 0) (ht : st.title_similarity = 0)
    (he1 : e.companyName ≠ [] → clean_text e.companyName ≠ [])
    (he2 : e.title ≠ [] → clean_text e.title ≠ []) :
    (analyzeStep [] [] st e).company_similarity = 0 ∧
    (analyzeStep [] [] st e).title_similarity = 0 := by
  by_cases hcn : e.companyName = []
  · by_cases htl : e.title = []
    · simp [analyzeStep, hcn, htl, hc, ht]
    · simp [analyzeStep, hcn, htl, sm_ratio_nil_left _ (he2 htl), hc, ht]
  · by_cases htl : e.title = []
    · simp [analyzeStep, hcn, htl, sm_ratio_nil_left _ (he1 hcn), hc, ht]
    · simp [analyzeStep, hcn, htl, sm_ratio_nil_left _ (he1 hcn),
        sm_ratio_nil_left _ (he2 htl), hc, ht]

/-- The `_analyze_experience` fold against empty targets keeps both
similarity maxima at `0` over entries whose strings normalize to nonempty
text. -/
lemma analyzeFold_zero :
    ∀ (es : List ExperienceEntry) (st : ExperienceAnalysis),
      st.company_similarity = 0 → st.title_similarity = 0 →
      (∀ e ∈ es, (e.companyName ≠ [] → clean_text e.companyName ≠ []) ∧
        (e.title ≠ [] → clean_text e.title ≠ [])) →
      (es.foldl (analyzeStep [] []) st).company_similarity = 0 ∧
      (es.foldl (analyzeStep [] []) st).title_similarity = 0
  | [], _, hc, ht, _ => ⟨hc, ht⟩
  | e :: es, st, hc, ht, hall => by
    rw [List.foldl_cons]
    obtain ⟨h1, h2⟩ := hall e (List.mem_cons_self e es)
    obtain ⟨hc', ht'⟩ := analyzeStep_zero st e hc ht h1 h2
    exact analyzeFold_zero es _ hc' ht'
      (fun x hx => hall x (List.mem_cons_of_mem _ hx))

/-- Against empty company and title targets the two-threshold gate forces
`calculate_similarity` to `0`, provided every experience string of the
candidate normalizes to nonempty text. -/
lemma calculate_similarity_zero_of_empty_targets (profile : ProfileData)
    (lp : LinkedInProfile)
    (hc : profile.company_name = []) (ht : profile.position_title = [])
    (hents : ∀ e ∈ lp.experience,
      (e.companyName ≠ [] → clean_text e.companyName ≠ []) ∧
      (e.title ≠ [] → clean_text e.title ≠ [])) :
    calculate_similarity profile lp = 0 := by
  have hct : clean_text ([] : List Char) = [] := rfl
  have hea :
      (analyze_experience lp profile.company_name
        profile.position_title).company_similarity = 0 ∧
      (analyze_experience lp profile.company_name
        profile.position_title).title_similarity = 0 := by
    rw [hc, ht]
    simp only [analyze_experience, hct]
    by_cases hex : lp.experience = []
    · rw [if_pos hex]
      exact ⟨rfl, rfl⟩
    · rw [if_neg hex]
      exact analyzeFold_zero lp.experience ⟨false, false, none, none, 0, 0⟩
        rfl rfl hents
  obtain ⟨h1, h2⟩ := hea
  simp only [calculate_similarity, h1, h2, max_self]
  rw [if_pos (Or.inr (by rw [EXPERIENCE_THRESHOLD_eq]; norm_num))]

/-- A contact whose LinkedIn field is empty and whose update attempt raises
makes the contact loop abort with the counts accumulated so far. -/
lemma processContacts_cons_fail (api : LinkedInApi) (repos : WMRepositories)
    (dry_run : Bool) (c : Contact) (cs : List Contact)
    (processed updated : Nat) (e : Err)
    (hfield : c.linkedin_profile_field = [])
    (hfail : update_single_contact api repos c.uuid dry_run = .error e) :
    processContacts api repos dry_run (c :: cs) processed updated =
      .error (processed + 1, updated) := by
  simp [processContacts, hfield, hfail]

/-- A failing contact at the head of the first page makes the page loop
return `(1, 0)` whatever contacts and pages remain. -/
lemma pagesLoop_cons_fail (api : LinkedInApi) (repos : WMRepositories)
    (dry_run : Bool) (c : Contact) (cs : List Contact)
    (rest : List (Except Err (List Contact))) (e : Err)
    (hfield : c.linkedin_profile_field = [])
    (hfail : update_single_contact api repos c.uuid dry_run = .error e) :
    pagesLoop api repos dry_run (.ok (c :: cs) :: rest) 0 0 = (1, 0) := by
  simp only [pagesLoop,
    processContacts_cons_fail api repos dry_run c cs 0 0 e hfield hfail,
    Nat.zero_add]

/-! ## The claims -/

/-- Claim C1: whenever `find_linkedin_profile` returns a match, the match's
score clears `SIMILARITY_THRESHOLD = 0.7`; a best candidate scoring below
the threshold is never returned. -/
theorem C1_returned_match_clears_threshold (api : LinkedInApi)
    (profile : ProfileData) (m : BestMatch)
    (h : (find_linkedin_profile api profile).1 = .ok (some m)) :
    SIMILARITY_THRESHOLD = 7 / 10 ∧ SIMILARITY_THRESHOLD ≤ m.score :=
  ⟨SIMILARITY_THRESHOLD_eq, (find_some_spec api profile m h).1⟩

/-- Claim C1, witness: a concrete run that returns a match, whose score the
theorem bounds by the threshold. -/
theorem C1_threshold_witness :
    (find_linkedin_profile witApi1 witProfile1).1 = .ok (some witBm1) ∧
    (SIMILARITY_THRESHOLD = 7 / 10 ∧ SIMILARITY_THRESHOLD ≤ witBm1.score) :=
  ⟨rfl, C1_returned_match_clears_threshold witApi1 witProfile1 witBm1 rfl⟩

/-- Claim C2: `calculate_similarity` is `0.0` whenever the name similarity
is below `0.8` or the experience similarity
`max(company_similarity, title_similarity)` is below `0.3`, and otherwise
the weighted blend `name * 0.6 + experience * 0.4`. -/
theorem C2_gate_and_weighted_score (profile : ProfileData)
    (lp : LinkedInProfile) :
    calculate_similarity profile lp =
      if similarity profile.name (lp.firstName ++ ' ' :: lp.lastName) <
            8 / 10 ∨
          max (analyze_experience lp profile.company_name
              profile.position_title).company_similarity
            (analyze_experience lp profile.company_name
              profile.position_title).title_similarity < 3 / 10 then 0
      else
        similarity profile.name (lp.firstName ++ ' ' :: lp.lastName) *
            (6 / 10) +
          max (analyze_experience lp profile.company_name
              profile.position_title).company_similarity
            (analyze_experience lp profile.company_name
              profile.position_title).title_similarity * (4 / 10) := by
  have h6 : (mkRat 6 10 : ℚ) = 6 / 10 := by rw [Rat.mkRat_eq_div]; norm_num
  have h4 : (mkRat 4 10 : ℚ) = 4 / 10 := by rw [Rat.mkRat_eq_div]; norm_num
  simp only [calculate_similarity, similarity, NAME_THRESHOLD_eq,
    EXPERIENCE_THRESHOLD_eq, qmul_eq, qadd_eq, h6, h4]

/-- Claim C3: `find_linkedin_profile` considers only `search_results[:5]`
in API order (the profile fetches are exactly the truthy-urn hits of the
first five, in order), every considered candidate scores at most the
returned match, and the returned match is the first candidate attaining
its score: it strictly beats every candidate before it, so equal-score
ties go to the earlier candidate. -/
theorem C3_first_maximum_of_top_five (api : LinkedInApi)
    (profile : ProfileData) (m : BestMatch) (rs : List SearchHit)
    (tr : CallTrace)
    (hs : api.search_people
        (clean_text ((pySplit1 profile.name).getD 0 []))
        (clean_text ((pySplit1 profile.name).getD 1 [])) = .ok rs)
    (h : find_linkedin_profile api profile = (.ok (some m), tr)) :
    tr.profile_calls =
      ((rs.take 5).filter (fun r => r.urn_id ≠ [])).map (fun r => r.urn_id) ∧
    (∀ r' ∈ rs.take 5, r'.urn_id ≠ [] → ∀ lp',
      api.get_profile r'.urn_id = .ok lp' →
      calculate_similarity profile lp' ≤ m.score) ∧
    ∃ pre rr post, rs.take 5 = pre ++ rr :: post ∧ rr.urn_id ≠ [] ∧
      (∃ lp, api.get_profile rr.urn_id = .ok lp ∧
        m.score = calculate_similarity profile lp) ∧
      ∀ r' ∈ pre, r'.urn_id ≠ [] → ∀ lp',
        api.get_profile r'.urn_id = .ok lp' →
        calculate_similarity profile lp' < m.score := by
  obtain ⟨hlen, rs', hs', hne⟩ := find_some_shape api profile m tr h
  obtain rfl := Except.ok.inj (hs.symm.trans hs')
  have h1 : (find_linkedin_profile api profile).1 = .ok (some m) := by
    rw [h]
  obtain ⟨_, _, rs2, hs2, pre, rr, post, hdec, hru,
    ⟨lp, ci, hgp, hci, hbm, hmsc⟩, hall, hstrict⟩ :=
    find_some_spec api profile m h1
  obtain rfl := Except.ok.inj (hs.symm.trans hs2)
  obtain ⟨hp, _⟩ := find_ok_trace api profile (some m) tr rs hlen hs hne h
  exact ⟨hp, hall, pre, rr, post, hdec, hru, ⟨lp, hgp, hmsc⟩, hstrict⟩

/-- Claim C3, witness: the two-candidate run, where the first candidate
wins with score `1` and both candidates were considered in order. -/
theorem C3_first_maximum_witness :
    witTr3.profile_calls =
      ((witRs3.take 5).filter (fun r => r.urn_id ≠ [])).map
        (fun r => r.urn_id) ∧
    (∀ r' ∈ witRs3.take 5, r'.urn_id ≠ [] → ∀ lp',
      cexApi5.get_profile r'.urn_id = .ok lp' →
      calculate_similarity cexProfile5 lp' ≤ witBm3.score) ∧
    ∃ pre rr post, witRs3.take 5 = pre ++ rr :: post ∧ rr.urn_id ≠ [] ∧
      (∃ lp, cexApi5.get_profile rr.urn_id = .ok lp ∧
        witBm3.score = calculate_similarity cexProfile5 lp) ∧
      ∀ r' ∈ pre, r'.urn_id ≠ [] → ∀ lp',
        cexApi5.get_profile r'.urn_id = .ok lp' →
        calculate_similarity cexProfile5 lp' < witBm3.score :=
  C3_first_maximum_of_top_five cexApi5 cexProfile5 witBm3 witRs3 witTr3
    rfl rfl

/-- Claim C4 (amended): a failure while processing one contact is NOT
isolated: the `except WorkflowMaxError` handler around the page body
catches the wrapped error and `break`s the whole `while True` loop, so the
batch stops at the failing contact — here the very first contact of the
first page fails and the updater returns `(1, 0)` no matter how many
contacts and pages remain. -/
theorem C4_single_failure_aborts_batch (api : LinkedInApi)
    (repos : WMRepositories) (dry_run : Bool) (c : Contact)
    (cs : List Contact) (rest : List (Except Err (List Contact))) (e : Err)
    (hp : repos.pages = .ok (c :: cs) :: rest)
    (hfield : c.linkedin_profile_field = [])
    (hfail : update_single_contact api repos c.uuid dry_run = .error e) :
    update_missing_linkedin_profiles api repos dry_run = (1, 0) := by
  show pagesLoop api repos dry_run repos.pages 0 0 = (1, 0)
  rw [hp]
  exact pagesLoop_cons_fail api repos dry_run c cs rest e hfield hfail

/-- Claim C4, witness: the concrete aborting batch of the counterexample,
reached through the amended theorem. -/
theorem C4_abort_witness :
    cexRepos4.pages = .ok (cexC4c1 :: [cexC4c2]) :: [] ∧
    cexC4c1.linkedin_profile_field = [] ∧
    update_single_contact cexApi4 cexRepos4 cexC4c1.uuid false =
      .error wmUpdateFailed ∧
    update_missing_linkedin_profiles cexApi4 cexRepos4 false = (1, 0) :=
  ⟨rfl, rfl, rfl,
    C4_single_failure_aborts_batch cexApi4 cexRepos4 false cexC4c1
      [cexC4c2] [] wmUpdateFailed rfl rfl rfl⟩

/-- Claim C4, counterexample to the claimed failure isolation: one page of
two contacts, the first contact's match attempt raises, and the batch ends
with only `1` contact processed — the second contact of the run is never
processed. -/
theorem C4_batch_abort_counterexample :
    cexRepos4.pages = [.ok [cexC4c1, cexC4c2]] ∧
    update_missing_linkedin_profiles cexApi4 cexRepos4 false = (1, 0) :=
  ⟨rfl, rfl⟩

/-- Claim C5 (amended): `get_profile_contact_info` is fetched for EVERY
considered candidate (line 322 runs before the best-score check), not only
for candidates improving on the best: on any non-erroring run the
contact-info calls are exactly the truthy-urn hits of the first five
results, in order. -/
theorem C5_contact_info_for_every_candidate (api : LinkedInApi)
    (profile : ProfileData) (res : Option BestMatch) (tr : CallTrace)
    (rs : List SearchHit)
    (hlen : (pySplit1 profile.name).length = 2)
    (hs : api.search_people
        (clean_text ((pySplit1 profile.name).getD 0 []))
        (clean_text ((pySplit1 profile.name).getD 1 [])) = .ok rs)
    (hne : rs ≠ [])
    (h : find_linkedin_profile api profile = (.ok res, tr)) :
    tr.contact_info_calls =
      ((rs.take 5).filter (fun r => r.urn_id ≠ [])).map (fun r => r.urn_id) :=
  (find_ok_trace api profile res tr rs hlen hs hne h).2

/-- Claim C5, witness: the two-candidate run fetches contact info for both
candidates. -/
theorem C5_contact_info_witness :
    witTr3.contact_info_calls =
      ((witRs3.take 5).filter (fun r => r.urn_id ≠ [])).map
        (fun r => r.urn_id) :=
  C5_contact_info_for_every_candidate cexApi5 cexProfile5 (some witBm3)
    witTr3 witRs3 rfl rfl (List.cons_ne_nil _ _) rfl

/-- Claim C5, counterexample to "contact-info only for improving
candidates": the second candidate scores strictly below the first (so it
does not improve the best), yet its contact info is fetched. -/
theorem C5_contact_info_counterexample :
    (find_linkedin_profile cexApi5 cexProfile5).2.contact_info_calls =
      ["urn1".data, "urn2".data] ∧
    cexApi5.get_profile "urn1".data = .ok cexLp5a ∧
    cexApi5.get_profile "urn2".data = .ok cexLp5b ∧
    calculate_similarity cexProfile5 cexLp5b <
      calculate_similarity cexProfile5 cexLp5a :=
  ⟨rfl, rfl, rfl, by decide⟩

/-- Claim C6: a profile whose name splits into fewer than two tokens makes
`find_linkedin_profile` return `None` with an empty call trace — no
search, profile or contact-info call — and as a normal result, not an
error. -/
theorem C6_single_token_no_calls (api : LinkedInApi)
    (profile : ProfileData) (h : (pySplit1 profile.name).length < 2) :
    find_linkedin_profile api profile = (.ok none, emptyTrace) := by
  simp only [find_linkedin_profile]
  rw [if_pos (by omega : (pySplit1 profile.name).length ≠ 2)]

/-- Claim C6, witness: the single-token name `"Madonna"` against an API
whose every call raises, so the run could only succeed without external
calls. -/
theorem C6_single_token_witness :
    (pySplit1 witProfile6.name).length < 2 ∧
    find_linkedin_profile cexApi4 witProfile6 = (.ok none, emptyTrace) :=
  ⟨by decide, C6_single_token_no_calls cexApi4 witProfile6 (by decide)⟩

/-- Claim C7: the normalizer is idempotent, and the empty (`None`) input
yields the empty string without error. -/
theorem C7_normalize_idempotent (s : List Char) :
    clean_text (clean_text s) = clean_text s ∧
    clean_text [] = [] :=
  ⟨clean_text_idem s, rfl⟩

/-- Claim C8 (amended): `similarity(a, a) = 1.0` for every string `a` —
but the function is NOT symmetric (see the counterexample): difflib's
`ratio` depends on the argument order. -/
theorem C8_self_similarity_one (a : List Char) : similarity a a = 1 :=
  sm_ratio_self (clean_text a)

/-- Claim C8, counterexample to symmetry: swapping the arguments changes
the ratio (`1/4` versus `1/2` on this pair). -/
theorem C8_symmetry_counterexample :
    similarity "ab1ef2gh".data "ef3gh4ab".data ≠
      similarity "ef3gh4ab".data "ab1ef2gh".data := by
  decide

/-- Claim C9: the experience analyzer on an empty experience sequence
returns the all-negative result — flags false, best entries `None`, both
similarities `0.0` — for every target company and title, and never
errors. -/
theorem C9_empty_experience_all_negative (lp : LinkedInProfile)
    (tc tt : List Char) (h : lp.experience = []) :
    analyze_experience lp tc tt = ⟨false, false, none, none, 0, 0⟩ := by
  simp only [analyze_experience]
  rw [if_pos h]

/-- Claim C9, witness: a concrete candidate with no experience entries. -/
theorem C9_empty_experience_witness :
    witLp9.experience = [] ∧
    analyze_experience witLp9 "Acme".data "CFO".data =
      ⟨false, false, none, none, 0, 0⟩ :=
  ⟨rfl, C9_empty_experience_all_negative witLp9 "Acme".data "CFO".data rfl⟩

/-- Claim C10 (amended): with empty company and title targets no match is
returned, PROVIDED every experience string of every reachable candidate
normalizes to nonempty text; the proviso is necessary because an entry
normalizing to empty (e.g. `"!!!"`) scores `ratio = 1.0` against the empty
target — see the counterexample — so the original unconditional claim is
false. -/
theorem C10_empty_targets_no_match (api : LinkedInApi)
    (profile : ProfileData) (m : BestMatch)
    (hc : profile.company_name = []) (ht : profile.position_title = [])
    (hexp : ∀ urn lp, api.get_profile urn = .ok lp → ∀ e ∈ lp.experience,
      (e.companyName ≠ [] → clean_text e.companyName ≠ []) ∧
      (e.title ≠ [] → clean_text e.title ≠ [])) :
    (find_linkedin_profile api profile).1 ≠ .ok (some m) := by
  intro h
  obtain ⟨_, hpos, rs, hs, pre, rr, post, hdec, hru,
    ⟨lp, ci, hgp, hci, hbm, hmsc⟩, hall, hstrict⟩ :=
    find_some_spec api profile m h
  have hz := calculate_similarity_zero_of_empty_targets profile lp hc ht
    (hexp rr.urn_id lp hgp)
  rw [hmsc, hz] at hpos
  exact lt_irrefl 0 hpos

/-- Claim C10, witness: empty targets against a candidate whose experience
strings normalize to nonempty text — no match can come back. -/
theorem C10_empty_targets_witness :
    cexProfile10.company_name = [] ∧ cexProfile10.position_title = [] ∧
    (find_linkedin_profile witApi10 cexProfile10).1 ≠ .ok (some witBm1) :=
  ⟨rfl, rfl,
    C10_empty_targets_no_match witApi10 cexProfile10 witBm1 rfl rfl
      (fun urn lp hlp => by
        obtain rfl : cexLp5a = lp := Except.ok.inj hlp
        intro e he
        simp only [cexLp5a, List.mem_singleton] at he
        subst he
        decide)⟩

/-- Claim C10, counterexample to the unconditional claim: both targets
empty, yet the candidate whose only experience entry is the company
`"!!!"` (which normalizes to the empty string) comes back as a match with
a score clearing the threshold. -/
theorem C10_empty_targets_counterexample :
    cexProfile10.company_name = [] ∧ cexProfile10.position_title = [] ∧
    (find_linkedin_profile cexApi10 cexProfile10).1 =
      .ok (some (builtMatch cexProfile10 cexLp10
        ⟨"https://www.linkedin.com/in/janesmith".data⟩)) ∧
    SIMILARITY_THRESHOLD ≤ (builtMatch cexProfile10 cexLp10
      ⟨"https://www.linkedin.com/in/janesmith".data⟩).score :=
  ⟨rfl, rfl, rfl, by decide⟩

end MTDWMax

